import Mathlib

/-! OverRated: update methods on a line and on a loop

A shallow embedding of the update-method core of the OverRated library
(`OVRUtils.h`, `OVRUpdateMethod.h`, `OVRUpdateMethodLinear.h`,
`OVRUpdateMethodLooped.h`).

The classes are templates over a numeric type `T`; here `T` is instantiated
with the rationals `ℚ`, an exact ordered field with decidable comparisons, and
the elapsed time is taken in the same type.  The library's example
instantiates `T` with `double`, whose products and sums round: the statements
below describe one call of a function, or calls on values where the arithmetic
involved is exact, and nothing is stated about the accumulation of rounding
over repeated ticks of arbitrary values.  Reference parameters that a
function overwrites (`T & value`, `T & result`) become returned values.
Virtual member functions of `UpdateMethod` become the fields of a record of
hooks that each derived class supplies.  Members that a constructor leaves
uninitialised (`mTargetDir` for a value target, `mOverride` without override)
are explicit constructor arguments named `uninit...`.
-/

namespace OverRated

/-! ## OVRUtils.h -/

/-- Maximum of two values (`UtilMax`). -/
def UtilMax (first second : ℚ) : ℚ :=
  if first > second then first else second

/-- Minimum of two values (`UtilMin`). -/
def UtilMin (first second : ℚ) : ℚ :=
  if first ≤ second then first else second

/-- Minimum and maximum of two values, returned as the pair `(min, max)`
(`UtilMinMax`, which passes both back by reference). -/
def UtilMinMax (first second : ℚ) : ℚ × ℚ :=
  if first ≤ second then (first, second) else (second, first)

/-- Linear distance between two values (`UtilDist`). -/
def UtilDist (first second : ℚ) : ℚ :=
  UtilMax first second - UtilMin first second

/-- Whether `value` is between `first` and `second`, whose order is
unimportant (`UtilRangeCheck`). -/
def UtilRangeCheck (value first second : ℚ) : Bool :=
  decide (value ≤ UtilMax first second) && decide (value ≥ UtilMin first second)

/-- Binds a value within a range, pushing it back to the nearest boundary
(`UtilBindValueToRange`); the updated `value` is returned. -/
def UtilBindValueToRange (value first second : ℚ) : ℚ :=
  let mm := UtilMinMax first second
  if value > mm.2 then mm.2
  else if value < mm.1 then mm.1
  else value

/-- Absolute value without `std::abs` (`UtilAbs`). -/
def UtilAbs (value : ℚ) : ℚ :=
  if value < 0 then value * (-1) else value

/-! ## OVRUpdateMethod.h -/

/-- The two possible directions of change for a value. -/
inductive ConstDirection where
  | CD_INCREASING
  | CD_DECREASING
  deriving DecidableEq, Repr

/-- The type of target an update method has. -/
inductive TargetType where
  | T_DIRECTION
  | T_VALUE
  deriving DecidableEq, Repr

open ConstDirection TargetType

/-- Data members of `UpdateMethod<T>`. -/
structure UpdateMethod where
  mTargetType : TargetType
  mTargetValue : ℚ
  mTargetDir : ConstDirection
  mRate : ℚ
  deriving DecidableEq, Repr

/-- The virtual member functions of `UpdateMethod<T>` that a derived class
overrides. -/
structure UpdateMethodHooks where
  _checkValue : ℚ → ℚ
  _getBestDirection : ℚ → ConstDirection
  _processResultForValueTarget : ℚ → ℚ → ConstDirection → ℚ
  _processResultForDirectionalTarget : ℚ → ℚ → ConstDirection → ℚ

namespace UpdateMethod

/-- Constructor for a directional target:
`mTargetType(T_DIRECTION), mTargetValue(0), mTargetDir(target), mRate(rate)`. -/
def ctorDirection (rate : ℚ) (target : ConstDirection) : UpdateMethod :=
  { mTargetType := T_DIRECTION, mTargetValue := 0, mTargetDir := target, mRate := rate }

/-- Constructor for a value target:
`mTargetType(T_VALUE), mTargetValue(target), mRate(rate)`; `mTargetDir` is not
initialised and holds `uninitDir`. -/
def ctorValue (rate target : ℚ) (uninitDir : ConstDirection) : UpdateMethod :=
  { mTargetType := T_VALUE, mTargetValue := target, mTargetDir := uninitDir, mRate := rate }

/-- The rate setter: `mRate = UtilAbs(rate)`. -/
def setRate (self : UpdateMethod) (rate : ℚ) : UpdateMethod :=
  { self with mRate := UtilAbs rate }

/-- The set rate. -/
def getRate (self : UpdateMethod) : ℚ := self.mRate

/-- Whether the target of this method is a value. -/
def getHasTargetValue (self : UpdateMethod) : Bool :=
  decide (self.mTargetType = T_VALUE)

/-- Whether the target of this method is a direction. -/
def getHasTargetDirection (self : UpdateMethod) : Bool :=
  decide (self.mTargetType = T_DIRECTION)

/-- The value target (the stored field, whatever the target type). -/
def getTargetValue (self : UpdateMethod) : ℚ := self.mTargetValue

/-- The directional target (the stored field, whatever the target type). -/
def getTargetDirection (self : UpdateMethod) : ConstDirection := self.mTargetDir

/-- The body of `updateValue`, with the virtual calls resolved through `hooks`.
The leading `assert( getHasTargetDirection() || getHasTargetValue() )` holds
for both values of the target type (see `assert_target_kind`) and has no
effect.  The best direction is asked for the value as passed in, before
`_checkValue`.  The product `getRate() * timeElapsed` and the sum or difference
with it are exact here, where `double` would round them. -/
def updateValue (self : UpdateMethod) (hooks : UpdateMethodHooks)
    (value timeElapsed : ℚ) : ℚ :=
  let magnitude := self.getRate * timeElapsed
  let original := hooks._checkValue value
  let result := original
  let dir :=
    if self.getHasTargetValue then hooks._getBestDirection value
    else self.getTargetDirection
  let result :=
    if dir = CD_INCREASING then result + magnitude else result - magnitude
  if self.getHasTargetValue then
    hooks._processResultForValueTarget result original dir
  else
    hooks._processResultForDirectionalTarget result original dir

/-- Whether this method has a target value and has reached it. -/
def getIsFinished (self : UpdateMethod) (value : ℚ) : Bool :=
  if self.getHasTargetDirection then false
  else decide (value = self.getTargetValue)

end UpdateMethod

/-! ## OVRUpdateMethodLinear.h -/

/-- The linear update method: `UpdateMethodLinear<T>` adds no data member. -/
structure UpdateMethodLinear extends UpdateMethod
  deriving DecidableEq, Repr

namespace UpdateMethodLinear

/-- Constructor for a directional target. -/
def ctorDirection (rate : ℚ) (target : ConstDirection) : UpdateMethodLinear :=
  { toUpdateMethod := UpdateMethod.ctorDirection rate target }

/-- Constructor for a value target. -/
def ctorValue (rate target : ℚ) (uninitDir : ConstDirection) : UpdateMethodLinear :=
  { toUpdateMethod := UpdateMethod.ctorValue rate target uninitDir }

/-- Increase if the target is greater, decrease otherwise. -/
def _getBestDirection (self : UpdateMethodLinear) (value : ℚ) : ConstDirection :=
  if self.getTargetValue > value then CD_INCREASING else CD_DECREASING

/-- If the target is between the original value and the result, the result
is reverted to the target. -/
def _processResultForValueTarget (self : UpdateMethodLinear)
    (result originalValue : ℚ) (_dir : ConstDirection) : ℚ :=
  let target := self.getTargetValue
  if UtilRangeCheck target originalValue result then target else result

/-- The virtual table of the linear method: `_checkValue` and
`_processResultForDirectionalTarget` keep the empty base bodies. -/
def hooks (self : UpdateMethodLinear) : UpdateMethodHooks :=
  { _checkValue := fun value => value
    _getBestDirection := self._getBestDirection
    _processResultForValueTarget := self._processResultForValueTarget
    _processResultForDirectionalTarget := fun result _ _ => result }

/-- The inherited `updateValue` on a linear method. -/
def updateValue (self : UpdateMethodLinear) (value timeElapsed : ℚ) : ℚ :=
  self.toUpdateMethod.updateValue self.hooks value timeElapsed

/-- The inherited `getIsFinished` on a linear method. -/
def getIsFinished (self : UpdateMethodLinear) (value : ℚ) : Bool :=
  self.toUpdateMethod.getIsFinished value

/-- The inherited `setRate` on a linear method. -/
def setRate (self : UpdateMethodLinear) (rate : ℚ) : UpdateMethodLinear :=
  { self with toUpdateMethod := self.toUpdateMethod.setRate rate }

end UpdateMethodLinear

/-! ## OVRUpdateMethodLooped.h -/

/-- Data members of `UpdateMethodLooped<T>`. -/
structure UpdateMethodLooped extends UpdateMethod where
  mOverrideEnabled : Bool
  mOverride : ConstDirection
  mMin : ℚ
  mMax : ℚ
  deriving DecidableEq, Repr

namespace UpdateMethodLooped

/-- Constructor for a directional target; `assert(min < max)` fails the
construction (`none`).  `mOverride` is not initialised. -/
def ctorDirection (rate : ℚ) (target : ConstDirection) (min max : ℚ)
    (uninitOverride : ConstDirection) : Option UpdateMethodLooped :=
  if min < max then
    some { toUpdateMethod := UpdateMethod.ctorDirection rate target
           mOverrideEnabled := false, mOverride := uninitOverride
           mMin := min, mMax := max }
  else none

/-- Constructor for a value target; `assert(min < max)` fails the
construction (`none`).  `mOverride` and `mTargetDir` are not initialised. -/
def ctorValue (rate target min max : ℚ)
    (uninitDir uninitOverride : ConstDirection) : Option UpdateMethodLooped :=
  if min < max then
    some { toUpdateMethod := UpdateMethod.ctorValue rate target uninitDir
           mOverrideEnabled := false, mOverride := uninitOverride
           mMin := min, mMax := max }
  else none

/-- Constructor for a value target with a directional override;
`assert(min < max)` fails the construction (`none`). -/
def ctorValueOverride (rate target : ℚ) (directionOverride : ConstDirection)
    (min max : ℚ) (uninitDir : ConstDirection) : Option UpdateMethodLooped :=
  if min < max then
    some { toUpdateMethod := UpdateMethod.ctorValue rate target uninitDir
           mOverrideEnabled := true, mOverride := directionOverride
           mMin := min, mMax := max }
  else none

/-- Minimum value of the looped range. -/
def getMin (self : UpdateMethodLooped) : ℚ := self.mMin

/-- Maximum value of the looped range. -/
def getMax (self : UpdateMethodLooped) : ℚ := self.mMax

/-- Whether an override direction was supplied. -/
def getIsOverrideEnabled (self : UpdateMethodLooped) : Bool := self.mOverrideEnabled

/-- The override direction. -/
def getDirectionOverride (self : UpdateMethodLooped) : ConstDirection := self.mOverride

/-- The override if one was supplied, otherwise the direction of the shorter
of the direct path and the path around the bounds. -/
def _getBestDirection (self : UpdateMethodLooped) (value : ℚ) : ConstDirection :=
  if self.getIsOverrideEnabled then self.getDirectionOverride
  else
    let target := self.getTargetValue
    let forward_distance := UtilDist value target
    let backward_distance :=
      UtilDist (UtilMin value target) self.getMin
        + UtilDist (UtilMax value target) self.getMax
    if forward_distance ≤ backward_distance then
      (if value ≤ target then CD_INCREASING else CD_DECREASING)
    else
      (if value ≤ target then CD_DECREASING else CD_INCREASING)

/-- A value that has passed a bound loops around to the other bound and
surpasses it by the same amount; the outcome is then bound to the range. -/
def _checkValue (self : UpdateMethodLooped) (value : ℚ) : ℚ :=
  let value :=
    if value > self.getMax then self.getMin + (value - self.getMax)
    else if value < self.getMin then self.getMax + (value - self.getMin)
    else value
  UtilBindValueToRange value self.getMin self.getMax

/-- The check for a passed target, contingent on whether the update caused
a loop. -/
def _processResultForValueTarget (self : UpdateMethodLooped)
    (result originalValue : ℚ) (_dir : ConstDirection) : ℚ :=
  let target := self.getTargetValue
  if UtilRangeCheck result self.getMin self.getMax then
    (if UtilRangeCheck target originalValue result then target else result)
  else
    let marker := if result > self.getMax then self.getMin else self.getMax
    let result := self._checkValue result
    if UtilRangeCheck target result marker then target else result

/-- For a directional target the result is only checked. -/
def _processResultForDirectionalTarget (self : UpdateMethodLooped)
    (result _originalValue : ℚ) (_dir : ConstDirection) : ℚ :=
  self._checkValue result

/-- The virtual table of the looped method. -/
def hooks (self : UpdateMethodLooped) : UpdateMethodHooks :=
  { _checkValue := self._checkValue
    _getBestDirection := self._getBestDirection
    _processResultForValueTarget := self._processResultForValueTarget
    _processResultForDirectionalTarget := self._processResultForDirectionalTarget }

/-- The inherited `updateValue` on a looped method. -/
def updateValue (self : UpdateMethodLooped) (value timeElapsed : ℚ) : ℚ :=
  self.toUpdateMethod.updateValue self.hooks value timeElapsed

/-- The inherited `getIsFinished` on a looped method. -/
def getIsFinished (self : UpdateMethodLooped) (value : ℚ) : Bool :=
  self.toUpdateMethod.getIsFinished value

/-- The inherited `setRate` on a looped method. -/
def setRate (self : UpdateMethodLooped) (rate : ℚ) : UpdateMethodLooped :=
  { self with toUpdateMethod := self.toUpdateMethod.setRate rate }

end UpdateMethodLooped

/-! ## OVRUpdatedObject.h, OVRUpdatedValue.h, OVRUpdatedValueBasic.h, OVRUpdatedValueRef.h

A value-holder keeps a pointer to its update method; the object pointed to
is one of the two methods of the library and is represented by value, and a
null pointer by `none`.  `UpdatedValueBasic` and `UpdatedValueRef` have the
same bodies for `getValue` and `setValue` over their variable `mVar` (an own
copy, resp. a referenced variable), so both are the record `UpdatedValue`.
-/

/-- The object behind an `UpdateMethod<T> *`, with its dynamic type. -/
inductive UpdateMethodPtr where
  | linear (m : UpdateMethodLinear)
  | looped (m : UpdateMethodLooped)
  deriving DecidableEq, Repr

namespace UpdateMethodPtr

/-- The call `method->updateValue(value, timeElapsed)`. -/
def updateValue : UpdateMethodPtr → ℚ → ℚ → ℚ
  | linear m, value, timeElapsed => m.updateValue value timeElapsed
  | looped m, value, timeElapsed => m.updateValue value timeElapsed

/-- The call `method->getIsFinished(value)`. -/
def getIsFinished : UpdateMethodPtr → ℚ → Bool
  | linear m, value => m.getIsFinished value
  | looped m, value => m.getIsFinished value

end UpdateMethodPtr

/-- Data members of a value-holder: `mIsPaused` of `UpdatedObject`,
`mUpdateMethod` of `UpdatedValue<T>` and the variable `mVar` of
`UpdatedValueBasic<T>` / `UpdatedValueRef<T>`. -/
structure UpdatedValue where
  mIsPaused : Bool
  mUpdateMethod : Option UpdateMethodPtr
  mVar : ℚ
  deriving DecidableEq, Repr

namespace UpdatedValue

/-- Getter for the paused state. -/
def getIsPaused (self : UpdatedValue) : Bool := self.mIsPaused

/-- Setter for the paused state. -/
def setIsPaused (self : UpdatedValue) (paused : Bool) : UpdatedValue :=
  { self with mIsPaused := paused }

/-- Getter for the value. -/
def getValue (self : UpdatedValue) : ℚ := self.mVar

/-- Setter for the value. -/
def setValue (self : UpdatedValue) (value : ℚ) : UpdatedValue :=
  { self with mVar := value }

/-- Accessor for the update method (can be null). -/
def getMethod (self : UpdatedValue) : Option UpdateMethodPtr := self.mUpdateMethod

/-- Whether this holder is currently updating a value: a method is installed
and it is not finished at the current value. -/
def getIsUpdating (self : UpdatedValue) : Bool :=
  match self.mUpdateMethod with
  | some method => !method.getIsFinished self.getValue
  | none => false

/-- The response to a time update: if updating, the value is replaced by the
method's `updateValue` of it. -/
def _addTime (self : UpdatedValue) (timeElapsed : ℚ) : UpdatedValue :=
  if self.getIsUpdating then
    match self.mUpdateMethod with
    | some method => self.setValue (method.updateValue self.getValue timeElapsed)
    | none => self
  else self

/-- Installs an update method (null allowed), then adjusts any invalid
initial setting with `_addTime(0.0)`. -/
def setMethod (self : UpdatedValue) (method : Option UpdateMethodPtr) : UpdatedValue :=
  ({ self with mUpdateMethod := method })._addTime 0

/-- If unpaused, add the elapsed time (`UpdatedObject::addTime`). -/
def addTime (self : UpdatedValue) (timeElapsed : ℚ) : UpdatedValue :=
  if !self.getIsPaused then self._addTime timeElapsed else self

end UpdatedValue

/-- Constructor of `UpdatedValueBasic<T>`: unpaused, no method, `mVar = initValue`. -/
def UpdatedValueBasic.ctor (initValue : ℚ) : UpdatedValue :=
  { mIsPaused := false, mUpdateMethod := none, mVar := initValue }

/-- Constructor of `UpdatedValueRef<T>`: unpaused, no method, `mVar` is the
referenced variable, which holds `value`. -/
def UpdatedValueRef.ctor (value : ℚ) : UpdatedValue :=
  { mIsPaused := false, mUpdateMethod := none, mVar := value }

/-! ## OVRUpdatedObjectList.h

The list holds pointers to its items.  A pointer is a natural number and the
objects pointed to are given by a map `items` from pointers to value-holders
(the instantiation `UpdatedObjectList< UpdatedValue<T> >` of the example).
-/

/-- Data members of `UpdatedObjectList<T>`: `mIsPaused` of `UpdatedObject` and
the vector `mList` of item pointers. -/
structure UpdatedObjectList where
  mIsPaused : Bool
  mList : List ℕ
  deriving DecidableEq, Repr

namespace UpdatedObjectList

/-- The implicit default constructor: unpaused and empty. -/
def ctor : UpdatedObjectList := { mIsPaused := false, mList := [] }

/-- Getter for the paused state. -/
def getIsPaused (self : UpdatedObjectList) : Bool := self.mIsPaused

/-- Setter for the paused state. -/
def setIsPaused (self : UpdatedObjectList) (paused : Bool) : UpdatedObjectList :=
  { self with mIsPaused := paused }

/-- Whether the list currently contains an item: some `mList[i] == item`. -/
def contains (self : UpdatedObjectList) (item : ℕ) : Bool :=
  self.mList.any (fun x => x == item)

/-- Adds a new item: `push_back` unless the list contains it. -/
def add (self : UpdatedObjectList) (newItem : ℕ) : UpdatedObjectList :=
  if !self.contains newItem then { self with mList := self.mList ++ [newItem] }
  else self

/-- Removes an existing item: erases the first `mList[i] == item`, if any. -/
def remove (self : UpdatedObjectList) (item : ℕ) : UpdatedObjectList :=
  { self with mList := self.mList.erase item }

/-- Clears the list without deleting anything. -/
def clear (self : UpdatedObjectList) : UpdatedObjectList :=
  { self with mList := [] }

/-- The number of items in the container. -/
def getSize (self : UpdatedObjectList) : ℕ := self.mList.length

/-- When time is added, every item of the list receives `addTime`, in the
order of the list; the result is the new state of the objects pointed to. -/
def _addTime (self : UpdatedObjectList) (timeElapsed : ℚ)
    (items : ℕ → UpdatedValue) : ℕ → UpdatedValue :=
  self.mList.foldl
    (fun its i => Function.update its i ((its i).addTime timeElapsed)) items

/-- If unpaused, add the elapsed time (`UpdatedObject::addTime`). -/
def addTime (self : UpdatedObjectList) (timeElapsed : ℚ)
    (items : ℕ → UpdatedValue) : ℕ → UpdatedValue :=
  if !self.getIsPaused then self._addTime timeElapsed items else items

/-- A call that changes the content of the list: `add(item)`, `remove(item)`
or `clear()`. -/
inductive Call where
  | add (item : ℕ)
  | remove (item : ℕ)
  | clear
  deriving DecidableEq, Repr

/-- The list after one such call. -/
def call (self : UpdatedObjectList) : Call → UpdatedObjectList
  | Call.add item => self.add item
  | Call.remove item => self.remove item
  | Call.clear => self.clear

/-- The list after a sequence of such calls on a freshly constructed list. -/
def calls (cs : List Call) : UpdatedObjectList :=
  cs.foldl call ctor

end UpdatedObjectList

/-! ## Helper lemmas on the utilities -/

/-- The assertion `getHasTargetDirection() || getHasTargetValue()` at the head
of `updateValue` and `getIsFinished` never fails. -/
theorem UpdateMethod.assert_target_kind (p : UpdateMethod) :
    (p.getHasTargetDirection || p.getHasTargetValue) = true := by
  cases p with
  | mk ty g d r => cases ty <;> rfl

theorem UtilMax_eq_max (a b : ℚ) : UtilMax a b = max a b := by
  unfold UtilMax
  split_ifs with h
  · exact (max_eq_left h.le).symm
  · exact (max_eq_right (not_lt.mp h)).symm

theorem UtilMin_eq_min (a b : ℚ) : UtilMin a b = min a b := by
  unfold UtilMin
  split_ifs with h
  · exact (min_eq_left h).symm
  · exact (min_eq_right (not_le.mp h).le).symm

theorem UtilRangeCheck_iff (v a b : ℚ) :
    UtilRangeCheck v a b = true ↔ min a b ≤ v ∧ v ≤ max a b := by
  simp [UtilRangeCheck, UtilMax_eq_max, UtilMin_eq_min, and_comm]

theorem UtilBindValueToRange_of_lt (v lo hi : ℚ) (h : lo < hi) :
    UtilBindValueToRange v lo hi = if v > hi then hi else if v < lo then lo else v := by
  simp [UtilBindValueToRange, UtilMinMax, h.le]

/-! ## The looped method: normalisation and the shape of one tick -/

/-- The value of `_checkValue` on a range with `min < max`. -/
theorem UpdateMethodLooped.checkValue_eq (p : UpdateMethodLooped)
    (h : p.getMin < p.getMax) (v : ℚ) :
    p._checkValue v =
      if v > p.getMax then min (p.getMin + (v - p.getMax)) p.getMax
      else if v < p.getMin then max (p.getMax + (v - p.getMin)) p.getMin
      else v := by
  unfold UpdateMethodLooped._checkValue
  simp only [UtilBindValueToRange_of_lt _ _ _ h]
  by_cases h1 : v > p.getMax
  · simp only [h1, if_true]
    have h2 : ¬ p.getMin + (v - p.getMax) < p.getMin := by
      have : p.getMax < v := h1
      linarith
    rw [if_neg h2]
    by_cases h3 : p.getMin + (v - p.getMax) > p.getMax
    · rw [if_pos h3]
      exact (min_eq_right (le_of_lt h3)).symm
    · rw [if_neg h3]
      exact (min_eq_left (not_lt.mp h3)).symm
  · simp only [h1, if_false]
    by_cases h2 : v < p.getMin
    · simp only [h2, if_true]
      have h3 : ¬ p.getMax + (v - p.getMin) > p.getMax := by
        have : ¬ p.getMax < p.getMax + (v - p.getMin) := by linarith
        exact this
      rw [if_neg h3]
      by_cases h4 : p.getMax + (v - p.getMin) < p.getMin
      · rw [if_pos h4]
        exact (max_eq_right h4.le).symm
      · rw [if_neg h4]
        exact (max_eq_left (not_lt.mp h4)).symm
    · simp only [h2, if_false]
      rw [if_neg h1]

/-- One tick of the looped method with a Value target, as the composition of
its hooks. -/
theorem UpdateMethodLooped.updateValue_of_value (p : UpdateMethodLooped)
    (hv : p.getHasTargetValue = true) (v t : ℚ) :
    p.updateValue v t =
      p._processResultForValueTarget
        (if p._getBestDirection v = CD_INCREASING then p._checkValue v + p.getRate * t
         else p._checkValue v - p.getRate * t)
        (p._checkValue v) (p._getBestDirection v) := by
  simp [UpdateMethodLooped.updateValue, UpdateMethod.updateValue,
    UpdateMethodLooped.hooks, hv]

/-- One tick of the looped method with a Direction target, as the composition
of its hooks. -/
theorem UpdateMethodLooped.updateValue_of_direction (p : UpdateMethodLooped)
    (hd : p.getHasTargetValue = false) (v t : ℚ) :
    p.updateValue v t =
      p._checkValue
        (if p.getTargetDirection = CD_INCREASING then p._checkValue v + p.getRate * t
         else p._checkValue v - p.getRate * t) := by
  simp [UpdateMethodLooped.updateValue, UpdateMethod.updateValue,
    UpdateMethodLooped.hooks, UpdateMethodLooped._processResultForDirectionalTarget, hd]

/-! ## The linear method with a value target -/

/-- One tick of the linear method towards a value target, for a non-negative
magnitude `m = rate * timeElapsed`. -/
theorem UpdateMethodLinear.updateValue_ctorValue (rate g : ℚ) (u : ConstDirection)
    (v t : ℚ) (hm : 0 ≤ rate * t) :
    (UpdateMethodLinear.ctorValue rate g u).updateValue v t =
      if v < g then min (v + rate * t) g else max (v - rate * t) g := by
  simp only [UpdateMethodLinear.updateValue, UpdateMethod.updateValue,
    UpdateMethodLinear.hooks, UpdateMethodLinear.ctorValue, UpdateMethod.ctorValue,
    UpdateMethod.getHasTargetValue, UpdateMethod.getRate, UpdateMethod.getTargetValue,
    UpdateMethodLinear._getBestDirection, UpdateMethodLinear._processResultForValueTarget]
  by_cases hvg : v < g
  · simp only [hvg, gt_iff_lt, if_true, decide_True]
    by_cases hr : UtilRangeCheck g v (v + rate * t) = true
    · rw [if_pos hr]
      rw [UtilRangeCheck_iff] at hr
      rw [max_eq_right (by linarith)] at hr
      exact (min_eq_right hr.2).symm
    · rw [if_neg hr]
      rw [UtilRangeCheck_iff, min_eq_left (by linarith), max_eq_right (by linarith)] at hr
      have : v + rate * t < g := by
        by_contra h
        exact hr ⟨hvg.le, not_lt.mp h⟩
      exact (min_eq_left this.le).symm
  · simp only [hvg, gt_iff_lt, if_false, decide_True, if_true]
    have hgv : g ≤ v := not_lt.mp hvg
    have hne : (CD_DECREASING = CD_INCREASING) = False := by simp
    simp only [hne, if_false]
    by_cases hr : UtilRangeCheck g v (v - rate * t) = true
    · rw [if_pos hr]
      rw [UtilRangeCheck_iff, min_eq_right (by linarith)] at hr
      exact (max_eq_right hr.1).symm
    · rw [if_neg hr]
      rw [UtilRangeCheck_iff, min_eq_right (by linarith), max_eq_left (by linarith)] at hr
      have : g < v - rate * t := by
        by_contra h
        exact hr ⟨not_lt.mp h, hgv⟩
      exact (max_eq_left this.le).symm

/-! ## Claims on the linear method -/

/-- C1: with a Direction target the linear method returns `v + r*t` for
`CD_INCREASING` and `v - r*t` for `CD_DECREASING`, with no clamping or snapping;
for instance `v = 1`, `r = 1/2`, `t = 5` gives `7/2`. -/
theorem linear_direction_updateValue (v r t : ℚ) :
    (UpdateMethodLinear.ctorDirection r CD_INCREASING).updateValue v t = v + r * t ∧
    (UpdateMethodLinear.ctorDirection r CD_DECREASING).updateValue v t = v - r * t ∧
    (UpdateMethodLinear.ctorDirection (1/2) CD_INCREASING).updateValue 1 5 = 7/2 := by
  refine ⟨?_, ?_, ?_⟩ <;>
    simp [UpdateMethodLinear.updateValue, UpdateMethod.updateValue,
      UpdateMethodLinear.hooks, UpdateMethodLinear.ctorDirection,
      UpdateMethod.ctorDirection, UpdateMethod.getHasTargetValue,
      UpdateMethod.getRate, UpdateMethod.getTargetDirection]
  norm_num

/-- C2: with a Value target `g` and magnitude `m = rate * t ≥ 0`, one tick of
the linear method from `v` gives `g` if `|g - v| ≤ m`, `v + m` if `g > v` and
`g - v > m`, and `v - m` if `g < v` and `v - g > m`; the result lies between
`v` and `g` inclusive. -/
theorem linear_value_single_tick (rate g v t : ℚ) (u : ConstDirection)
    (hm : 0 ≤ rate * t) :
    (|g - v| ≤ rate * t →
      (UpdateMethodLinear.ctorValue rate g u).updateValue v t = g) ∧
    (g > v → g - v > rate * t →
      (UpdateMethodLinear.ctorValue rate g u).updateValue v t = v + rate * t) ∧
    (g < v → v - g > rate * t →
      (UpdateMethodLinear.ctorValue rate g u).updateValue v t = v - rate * t) ∧
    min v g ≤ (UpdateMethodLinear.ctorValue rate g u).updateValue v t ∧
    (UpdateMethodLinear.ctorValue rate g u).updateValue v t ≤ max v g := by
  rw [UpdateMethodLinear.updateValue_ctorValue _ _ _ _ _ hm]
  by_cases hvg : v < g
  · simp only [if_pos hvg]
    refine ⟨fun h => ?_, fun _ h => ?_, fun h _ => ?_, ?_, ?_⟩
    · rw [abs_le] at h
      exact min_eq_right (by linarith)
    · exact min_eq_left (by linarith)
    · exact absurd h (not_lt.mpr hvg.le)
    · rw [min_eq_left hvg.le]
      exact le_min (by linarith) hvg.le
    · rw [max_eq_right hvg.le]
      exact min_le_right _ _
  · have hgv : g ≤ v := not_lt.mp hvg
    simp only [if_neg hvg]
    refine ⟨fun h => ?_, fun h _ => ?_, fun _ h => ?_, ?_, ?_⟩
    · rw [abs_le] at h
      exact max_eq_right (by linarith)
    · exact absurd h (not_lt.mpr hgv)
    · exact max_eq_left (by linarith)
    · rw [min_eq_right hgv]
      exact le_max_right _ _
    · rw [max_eq_left hgv]
      exact max_le (by linarith) hgv

/-- Witness for C2: `v = 9`, `rate = 5`, `g = 10`, `elapsed = 1` gives exactly
`10`. -/
theorem linear_value_single_tick_witness :
    (0 : ℚ) ≤ 5 * 1 ∧
    (UpdateMethodLinear.ctorValue 5 10 CD_INCREASING).updateValue 9 1 = 10 :=
  ⟨by norm_num,
   (linear_value_single_tick 5 10 9 1 CD_INCREASING (by norm_num)).1 (by norm_num)⟩

/-- C5: a linear method with Value target `g` leaves `g` unchanged,
`updateValue g t = g` for every rate and every elapsed time, and
`getIsFinished g` is true before and after the call. -/
theorem linear_value_idempotent_at_target (rate g t : ℚ) (u : ConstDirection) :
    (UpdateMethodLinear.ctorValue rate g u).getIsFinished g = true ∧
    (UpdateMethodLinear.ctorValue rate g u).updateValue g t = g ∧
    (UpdateMethodLinear.ctorValue rate g u).getIsFinished
      ((UpdateMethodLinear.ctorValue rate g u).updateValue g t) = true := by
  have hfin : (UpdateMethodLinear.ctorValue rate g u).getIsFinished g = true := by
    simp [UpdateMethodLinear.getIsFinished, UpdateMethod.getIsFinished,
      UpdateMethodLinear.ctorValue, UpdateMethod.ctorValue,
      UpdateMethod.getHasTargetDirection, UpdateMethod.getTargetValue]
  have hupd : (UpdateMethodLinear.ctorValue rate g u).updateValue g t = g := by
    simp only [UpdateMethodLinear.updateValue, UpdateMethod.updateValue,
      UpdateMethodLinear.hooks, UpdateMethodLinear.ctorValue, UpdateMethod.ctorValue,
      UpdateMethod.getHasTargetValue, UpdateMethod.getRate, UpdateMethod.getTargetValue,
      UpdateMethodLinear._getBestDirection, UpdateMethodLinear._processResultForValueTarget]
    have hr : ∀ x : ℚ, UtilRangeCheck g g x = true := by
      intro x
      rw [UtilRangeCheck_iff]
      exact ⟨min_le_left _ _, le_max_left _ _⟩
    simp [hr]
  exact ⟨hfin, hupd, by rw [hupd]; exact hfin⟩

/-! ## Claims on the looped method -/

/-- C6 (evaluation at the failing input): on the range `[0, 100]` with Value
target `95`, rate `10` and one second elapsed, `updateValue 95 1` is `5`, not
`95`, with and without a direction override, and `getIsFinished` no longer
holds for the result. -/
theorem looped_value_at_target_moves (u o : ConstDirection) :
    (UpdateMethodLooped.ctorValue 10 95 0 100 u o).map
      (fun p => (p.getIsFinished 95, p.updateValue 95 1,
        p.getIsFinished (p.updateValue 95 1))) = some (true, 5, false) ∧
    (UpdateMethodLooped.ctorValueOverride 10 95 CD_INCREASING 0 100 u).map
      (fun p => (p.getIsFinished 95, p.updateValue 95 1,
        p.getIsFinished (p.updateValue 95 1))) = some (true, 5, false) := by
  constructor <;>
    norm_num [UpdateMethodLooped.ctorValue, UpdateMethodLooped.ctorValueOverride,
      UpdateMethod.ctorValue, UpdateMethodLooped.updateValue, UpdateMethod.updateValue,
      UpdateMethodLooped.hooks, UpdateMethodLooped.getIsFinished, UpdateMethod.getIsFinished,
      UpdateMethod.getHasTargetValue, UpdateMethod.getHasTargetDirection,
      UpdateMethod.getRate, UpdateMethod.getTargetValue,
      UpdateMethodLooped._getBestDirection, UpdateMethodLooped._checkValue,
      UpdateMethodLooped._processResultForValueTarget, UpdateMethodLooped.getMin,
      UpdateMethodLooped.getMax, UpdateMethodLooped.getIsOverrideEnabled,
      UpdateMethodLooped.getDirectionOverride, UtilRangeCheck, UtilBindValueToRange,
      UtilMinMax, UtilDist, UtilMax, UtilMin]
  all_goals decide

/-- C7 (evaluation at the failing input): on the range `[0, 360]` without
override, from `v = 350` with Value target `355` the chosen direction is
`CD_INCREASING` (direct path of length `5`), and with magnitude `15 ≥ 5` the
tick returns `5`: the target is skipped. -/
theorem looped_value_target_skipped (u o : ConstDirection) :
    (UpdateMethodLooped.ctorValue 15 355 0 360 u o).map
      (fun p => (p._getBestDirection 350, p.getRate * 1, p.updateValue 350 1))
      = some (CD_INCREASING, 15, 5) := by
  norm_num [UpdateMethodLooped.ctorValue,
    UpdateMethod.ctorValue, UpdateMethodLooped.updateValue, UpdateMethod.updateValue,
    UpdateMethodLooped.hooks, UpdateMethod.getHasTargetValue,
    UpdateMethod.getRate, UpdateMethod.getTargetValue,
    UpdateMethodLooped._getBestDirection, UpdateMethodLooped._checkValue,
    UpdateMethodLooped._processResultForValueTarget, UpdateMethodLooped.getMin,
    UpdateMethodLooped.getMax, UpdateMethodLooped.getIsOverrideEnabled,
    UpdateMethodLooped.getDirectionOverride, UtilRangeCheck, UtilBindValueToRange,
    UtilMinMax, UtilDist, UtilMax, UtilMin]

/-- C8 (evaluation at the failing input): on the range `[0, 360]` with Value
target `355`, override `CD_INCREASING` and magnitude `15`, no iterate of
`updateValue` from `350` is `355`: the iterates cycle through
`350, 5, 20, ..., 335, 350`. -/
theorem looped_value_override_never_converges (u : ConstDirection) (n : ℕ) :
    (UpdateMethodLooped.ctorValueOverride 15 355 CD_INCREASING 0 360 u).map
      (fun p => (fun x => p.updateValue x 1)^[n] 350) ≠ some 355 := by
  have hc : UpdateMethodLooped.ctorValueOverride 15 355 CD_INCREASING 0 360 u
      = some (UpdateMethodLooped.mk (UpdateMethod.mk T_VALUE 355 u 15)
          true CD_INCREASING 0 360) := by
    norm_num [UpdateMethodLooped.ctorValueOverride, UpdateMethod.ctorValue]
  rw [hc, Option.map_some']
  generalize hP : UpdateMethodLooped.mk (UpdateMethod.mk T_VALUE 355 u 15)
    true CD_INCREASING 0 360 = P
  have hmin : P.getMin = 0 := by rw [← hP]; rfl
  have hmax : P.getMax = 360 := by rw [← hP]; rfl
  have hlt : P.getMin < P.getMax := by rw [hmin, hmax]; norm_num
  have hv : P.getHasTargetValue = true := by rw [← hP]; rfl
  have hg : P.getTargetValue = 355 := by rw [← hP]; rfl
  have hr : P.getRate = 15 := by rw [← hP]; rfl
  have hd : ∀ x, P._getBestDirection x = CD_INCREASING := by
    intro x; rw [← hP]; rfl
  have hcv : ∀ x : ℚ, 0 ≤ x → x ≤ 360 → P._checkValue x = x := by
    intro x h1 h2
    rw [UpdateMethodLooped.checkValue_eq P hlt, hmin, hmax,
      if_neg (not_lt.mpr h2), if_neg (not_lt.mpr h1)]
  have hstep : ∀ x : ℚ, 5 ≤ x → x ≤ 335 → P.updateValue x 1 = x + 15 := by
    intro x h1 h2
    rw [UpdateMethodLooped.updateValue_of_value P hv, hd,
      hcv x (by linarith) (by linarith), hr, if_pos rfl]
    unfold UpdateMethodLooped._processResultForValueTarget
    have hin : UtilRangeCheck (x + 15 * 1) P.getMin P.getMax = true := by
      rw [UtilRangeCheck_iff, hmin, hmax]
      norm_num
      constructor <;> linarith
    have hout : ¬ UtilRangeCheck P.getTargetValue x (x + 15 * 1) = true := by
      rw [UtilRangeCheck_iff, hg, max_eq_right (by linarith)]
      intro h
      linarith [h.2]
    simp only [hin, hout, if_true, if_false]
    ring_nf
    simp
  have hwrap : P.updateValue 350 1 = 5 := by
    rw [UpdateMethodLooped.updateValue_of_value P hv, hd,
      hcv 350 (by norm_num) (by norm_num), hr, if_pos rfl]
    unfold UpdateMethodLooped._processResultForValueTarget
    have hin : ¬ UtilRangeCheck (350 + 15 * 1) P.getMin P.getMax = true := by
      rw [UtilRangeCheck_iff, hmin, hmax]
      norm_num
    rw [UpdateMethodLooped.checkValue_eq P hlt, hmin, hmax, hg]
    have hout : ¬ UtilRangeCheck 355 5 0 = true := by
      rw [UtilRangeCheck_iff]
      norm_num
    norm_num [hin, hout]
    exact fun h => absurd h hout
  have hinv : ∀ k : ℕ, ∃ j : ℕ, j ≤ 23 ∧
      (fun x => P.updateValue x 1)^[k] 350 = 5 + 15 * (j : ℚ) := by
    intro k
    induction k with
    | zero => exact ⟨23, le_rfl, by norm_num⟩
    | succ k ih =>
      obtain ⟨j, hj, hx⟩ := ih
      rw [Function.iterate_succ_apply', hx]
      rcases Nat.lt_or_ge j 23 with hlt23 | hge
      · refine ⟨j + 1, hlt23, ?_⟩
        have hj22 : (j : ℚ) ≤ 22 := by exact_mod_cast Nat.lt_succ_iff.mp hlt23
        rw [hstep _ (by linarith [Nat.cast_nonneg (α := ℚ) j]) (by linarith)]
        push_cast
        ring
      · have hj23 : j = 23 := le_antisymm hj hge
        subst hj23
        refine ⟨0, by norm_num, ?_⟩
        have : (5 : ℚ) + 15 * ((23 : ℕ) : ℚ) = 350 := by norm_num
        rw [this, hwrap]
        norm_num
  obtain ⟨j, hj, hx⟩ := hinv n
  intro h
  have h355 : (5 : ℚ) + 15 * (j : ℚ) = 355 := by
    rw [← hx]
    exact Option.some.inj h
  have hnat : 5 + 15 * j = 355 := by exact_mod_cast h355
  omega

/-- C9: a looped method built with a Direction target on `min < max` returns
`wrap (wrap v + m)` for `CD_INCREASING` and `wrap (wrap v - m)` for
`CD_DECREASING`, where `wrap` is `_checkValue` on `[min, max]` and
`m = rate * t`; no target enters the result. -/
theorem looped_direction_updateValue (rate min max v t : ℚ) (dir o : ConstDirection)
    (p : UpdateMethodLooped)
    (hp : UpdateMethodLooped.ctorDirection rate dir min max o = some p) :
    (p.getMin = min ∧ p.getMax = max) ∧
    (dir = CD_INCREASING →
      p.updateValue v t = p._checkValue (p._checkValue v + rate * t)) ∧
    (dir = CD_DECREASING →
      p.updateValue v t = p._checkValue (p._checkValue v - rate * t)) := by
  unfold UpdateMethodLooped.ctorDirection at hp
  split_ifs at hp with hlt
  have hp2 := Option.some.inj hp
  have hdv : p.getHasTargetValue = false := by rw [← hp2]; rfl
  have hdir : p.getTargetDirection = dir := by rw [← hp2]; rfl
  have hrate : p.getRate = rate := by rw [← hp2]; rfl
  have hmin : p.getMin = min := by rw [← hp2]; rfl
  have hmax : p.getMax = max := by rw [← hp2]; rfl
  refine ⟨⟨hmin, hmax⟩, fun hd => ?_, fun hd => ?_⟩
  · rw [UpdateMethodLooped.updateValue_of_direction p hdv, hdir, hrate, hd, if_pos rfl]
  · rw [UpdateMethodLooped.updateValue_of_direction p hdv, hdir, hrate, hd,
      if_neg (by decide)]

/-- Witness for C9: range `[0, 100]`, `v = 95`, `CD_INCREASING`, rate `10`,
one second elapsed gives `5`. -/
theorem looped_direction_updateValue_witness :
    UpdateMethodLooped.ctorDirection 10 CD_INCREASING 0 100 CD_INCREASING
      = some (UpdateMethodLooped.mk (UpdateMethod.mk T_DIRECTION 0 CD_INCREASING 10)
          false CD_INCREASING 0 100) ∧
    (UpdateMethodLooped.mk (UpdateMethod.mk T_DIRECTION 0 CD_INCREASING 10)
      false CD_INCREASING 0 100).updateValue 95 1 = 5 :=
  ⟨by norm_num [UpdateMethodLooped.ctorDirection, UpdateMethod.ctorDirection],
   ((looped_direction_updateValue 10 0 100 95 1 CD_INCREASING CD_INCREASING _
      (by norm_num [UpdateMethodLooped.ctorDirection, UpdateMethod.ctorDirection])).2.1
      rfl).trans
     (by norm_num [UpdateMethodLooped._checkValue, UpdateMethodLooped.getMin,
       UpdateMethodLooped.getMax, UtilBindValueToRange, UtilMinMax])⟩

/-- C10: on a range with `min < max`, `_checkValue v` is `v` if
`min ≤ v ≤ max`, `min (min + (v - max)) max` if `v > max`, and
`max (max + (v - min)) min` if `v < min`; a value beyond a bound by more than
the width `max - min` is bound to that same bound. -/
theorem looped_checkValue_closed_form (p : UpdateMethodLooped)
    (h : p.getMin < p.getMax) (v : ℚ) :
    (p.getMin ≤ v → v ≤ p.getMax → p._checkValue v = v) ∧
    (v > p.getMax → p._checkValue v = min (p.getMin + (v - p.getMax)) p.getMax) ∧
    (v < p.getMin → p._checkValue v = max (p.getMax + (v - p.getMin)) p.getMin) ∧
    (v > p.getMax + (p.getMax - p.getMin) → p._checkValue v = p.getMax) ∧
    (v < p.getMin - (p.getMax - p.getMin) → p._checkValue v = p.getMin) := by
  rw [UpdateMethodLooped.checkValue_eq p h]
  refine ⟨fun h1 h2 => ?_, fun h1 => ?_, fun h1 => ?_, fun h1 => ?_, fun h1 => ?_⟩
  · rw [if_neg (not_lt.mpr h2), if_neg (not_lt.mpr h1)]
  · rw [if_pos h1]
  · rw [if_neg (by intro h2; exact absurd (lt_trans h1 h) (not_lt.mpr h2.le)), if_pos h1]
  · have h2 : v > p.getMax := by linarith
    rw [if_pos h2]
    exact min_eq_right (by linarith)
  · have h2 : v < p.getMin := by linarith
    rw [if_neg (by intro h3; exact absurd (lt_trans h2 h) (not_lt.mpr h3.le)), if_pos h2]
    exact max_eq_right (by linarith)

/-- Witness for C10: on `[0, 100]` the value `250`, more than one width above
`100`, is bound to `100`. -/
theorem looped_checkValue_closed_form_witness :
    (0 : ℚ) < 100 ∧
    (UpdateMethodLooped.mk (UpdateMethod.mk T_DIRECTION 0 CD_INCREASING 10)
      false CD_INCREASING 0 100)._checkValue 250 = 100 :=
  ⟨by norm_num,
   (looped_checkValue_closed_form
      (UpdateMethodLooped.mk (UpdateMethod.mk T_DIRECTION 0 CD_INCREASING 10)
        false CD_INCREASING 0 100)
      (by norm_num [UpdateMethodLooped.getMin, UpdateMethodLooped.getMax]) 250).2.2.2.1
     (by norm_num [UpdateMethodLooped.getMin, UpdateMethodLooped.getMax])⟩

/-! ## Helper lemmas for the constructors and the range -/

theorem UtilAbs_eq_abs (r : ℚ) : UtilAbs r = |r| := by
  unfold UtilAbs
  split_ifs with h
  · rw [abs_of_neg h]; ring
  · rw [abs_of_nonneg (not_lt.mp h)]

theorem UtilDist_eq_abs (a b : ℚ) : UtilDist a b = |a - b| := by
  unfold UtilDist
  rw [UtilMax_eq_max, UtilMin_eq_min]
  rcases le_total a b with h | h
  · rw [max_eq_right h, min_eq_left h, abs_of_nonpos (by linarith)]; ring
  · rw [max_eq_left h, min_eq_right h, abs_of_nonneg (by linarith)]

/-- What a successful construction with a directional target yields. -/
theorem UpdateMethodLooped.ctorDirection_eq_some {rate lo hi : ℚ} {d o : ConstDirection}
    {p : UpdateMethodLooped}
    (hp : UpdateMethodLooped.ctorDirection rate d lo hi o = some p) :
    lo < hi ∧
    p = UpdateMethodLooped.mk (UpdateMethod.mk T_DIRECTION 0 d rate) false o lo hi := by
  unfold UpdateMethodLooped.ctorDirection at hp
  split_ifs at hp with hlt
  exact ⟨hlt, (Option.some.inj hp).symm⟩

/-- What a successful construction with a value target yields. -/
theorem UpdateMethodLooped.ctorValue_eq_some {rate g lo hi : ℚ} {u o : ConstDirection}
    {p : UpdateMethodLooped}
    (hp : UpdateMethodLooped.ctorValue rate g lo hi u o = some p) :
    lo < hi ∧
    p = UpdateMethodLooped.mk (UpdateMethod.mk T_VALUE g u rate) false o lo hi := by
  unfold UpdateMethodLooped.ctorValue at hp
  split_ifs at hp with hlt
  exact ⟨hlt, (Option.some.inj hp).symm⟩

/-- What a successful construction with a value target and an override yields. -/
theorem UpdateMethodLooped.ctorValueOverride_eq_some {rate g lo hi : ℚ}
    {d u : ConstDirection} {p : UpdateMethodLooped}
    (hp : UpdateMethodLooped.ctorValueOverride rate g d lo hi u = some p) :
    lo < hi ∧
    p = UpdateMethodLooped.mk (UpdateMethod.mk T_VALUE g u rate) true d lo hi := by
  unfold UpdateMethodLooped.ctorValueOverride at hp
  split_ifs at hp with hlt
  exact ⟨hlt, (Option.some.inj hp).symm⟩

/-- The normalised value lies in the range. -/
theorem UpdateMethodLooped.checkValue_mem (p : UpdateMethodLooped)
    (h : p.getMin < p.getMax) (v : ℚ) :
    p.getMin ≤ p._checkValue v ∧ p._checkValue v ≤ p.getMax := by
  rw [UpdateMethodLooped.checkValue_eq p h]
  split_ifs with h1 h2
  · exact ⟨le_min (by linarith) h.le, min_le_right _ _⟩
  · exact ⟨le_max_right _ _, max_le (by linarith) h.le⟩
  · exact ⟨not_lt.mp h2, not_lt.mp h1⟩

/-- The result of `_processResultForValueTarget` lies in the range when the
target does. -/
theorem UpdateMethodLooped.processResultForValueTarget_mem (p : UpdateMethodLooped)
    (h : p.getMin < p.getMax)
    (hg : p.getMin ≤ p.getTargetValue ∧ p.getTargetValue ≤ p.getMax)
    (r o : ℚ) (d : ConstDirection) :
    p.getMin ≤ p._processResultForValueTarget r o d ∧
    p._processResultForValueTarget r o d ≤ p.getMax := by
  unfold UpdateMethodLooped._processResultForValueTarget
  by_cases hin : UtilRangeCheck r p.getMin p.getMax = true
  · rw [if_pos hin]
    split_ifs
    · exact hg
    · rw [UtilRangeCheck_iff, min_eq_left h.le, max_eq_right h.le] at hin
      exact hin
  · rw [if_neg hin]
    dsimp only
    split_ifs
    all_goals first
      | exact hg
      | exact UpdateMethodLooped.checkValue_mem p h r

/-! ## Claims on the looped method: domain and direction -/

/-- C11: for a looped method with `min < max` whose target is a Direction, or
a Value inside `[min, max]` (with or without override), every input value,
rate and elapsed time give `min ≤ updateValue v t ≤ max`. -/
theorem looped_updateValue_in_range (p : UpdateMethodLooped)
    (h : p.getMin < p.getMax)
    (hg : p.getHasTargetValue = true →
      p.getMin ≤ p.getTargetValue ∧ p.getTargetValue ≤ p.getMax)
    (v t : ℚ) :
    p.getMin ≤ p.updateValue v t ∧ p.updateValue v t ≤ p.getMax := by
  by_cases hv : p.getHasTargetValue = true
  · rw [UpdateMethodLooped.updateValue_of_value p hv]
    exact UpdateMethodLooped.processResultForValueTarget_mem p h (hg hv) _ _ _
  · rw [UpdateMethodLooped.updateValue_of_direction p (Bool.eq_false_iff.mpr hv)]
    exact UpdateMethodLooped.checkValue_mem p h _

/-- Witness for C11: the method with Value target `355` on `[0, 360]`, rate
`15`, at the out-of-range input `370`. -/
theorem looped_updateValue_in_range_witness :
    (0 : ℚ) ≤
      (UpdateMethodLooped.mk (UpdateMethod.mk T_VALUE 355 CD_INCREASING 15)
        false CD_INCREASING 0 360).updateValue 370 1 ∧
    (UpdateMethodLooped.mk (UpdateMethod.mk T_VALUE 355 CD_INCREASING 15)
        false CD_INCREASING 0 360).updateValue 370 1 ≤ 360 :=
  looped_updateValue_in_range
    (UpdateMethodLooped.mk (UpdateMethod.mk T_VALUE 355 CD_INCREASING 15)
      false CD_INCREASING 0 360)
    (by norm_num [UpdateMethodLooped.getMin, UpdateMethodLooped.getMax])
    (fun _ => by
      norm_num [UpdateMethodLooped.getMin, UpdateMethodLooped.getMax,
        UpdateMethod.getTargetValue])
    370 1

/-- The best direction of a looped method without override, as the source
computes it. -/
theorem UpdateMethodLooped.getBestDirection_no_override (p : UpdateMethodLooped)
    (ho : p.getIsOverrideEnabled = false) (v : ℚ) :
    p._getBestDirection v =
      if UtilDist v p.getTargetValue ≤
          UtilDist (UtilMin v p.getTargetValue) p.getMin
            + UtilDist (UtilMax v p.getTargetValue) p.getMax then
        (if v ≤ p.getTargetValue then CD_INCREASING else CD_DECREASING)
      else
        (if v ≤ p.getTargetValue then CD_DECREASING else CD_INCREASING) := by
  unfold UpdateMethodLooped._getBestDirection
  rw [ho]
  rfl

/-- C12: without override, with `forward = UtilDist v g` and
`backward = UtilDist (min v g) lo + UtilDist (max v g) hi`, the best direction
is `CD_INCREASING` exactly when (`v ≤ g` and `forward ≤ backward`) or (`v > g`
and `forward > backward`), and `CD_DECREASING` otherwise; on a tie
`forward = backward` it is the direct path. -/
theorem looped_best_direction_rule (rate g lo hi v : ℚ) (u o : ConstDirection)
    (p : UpdateMethodLooped)
    (hp : UpdateMethodLooped.ctorValue rate g lo hi u o = some p) :
    (p._getBestDirection v = CD_INCREASING ↔
      (v ≤ g ∧ UtilDist v g ≤ UtilDist (min v g) lo + UtilDist (max v g) hi) ∨
      (v > g ∧ UtilDist v g > UtilDist (min v g) lo + UtilDist (max v g) hi)) ∧
    (p._getBestDirection v = CD_DECREASING ↔
      ¬ ((v ≤ g ∧ UtilDist v g ≤ UtilDist (min v g) lo + UtilDist (max v g) hi) ∨
         (v > g ∧ UtilDist v g > UtilDist (min v g) lo + UtilDist (max v g) hi))) ∧
    (UtilDist v g = UtilDist (min v g) lo + UtilDist (max v g) hi →
      p._getBestDirection v = if v ≤ g then CD_INCREASING else CD_DECREASING) := by
  obtain ⟨_, hpe⟩ := UpdateMethodLooped.ctorValue_eq_some hp
  have ho : p.getIsOverrideEnabled = false := by rw [hpe]; rfl
  have hg : p.getTargetValue = g := by rw [hpe]; rfl
  have hmin : p.getMin = lo := by rw [hpe]; rfl
  have hmax : p.getMax = hi := by rw [hpe]; rfl
  rw [UpdateMethodLooped.getBestDirection_no_override p ho, hg, hmin, hmax,
    UtilMin_eq_min, UtilMax_eq_max]
  generalize UtilDist v g = F
  generalize UtilDist (min v g) lo + UtilDist (max v g) hi = B
  by_cases h1 : v ≤ g <;> by_cases h2 : F ≤ B
  · rw [if_pos h2, if_pos h1]
    exact ⟨⟨fun _ => Or.inl ⟨h1, h2⟩, fun _ => rfl⟩,
      ⟨fun h => absurd h (by decide), fun h => absurd (Or.inl ⟨h1, h2⟩) h⟩, fun _ => rfl⟩
  · rw [if_neg h2, if_pos h1]
    refine ⟨⟨fun h => absurd h (by decide), fun h => ?_⟩, ⟨fun _ h => ?_, fun _ => rfl⟩,
      fun h => absurd h.le h2⟩
    · rcases h with h | h
      · exact absurd h.2 h2
      · exact absurd h1 (not_le.mpr h.1)
    · rcases h with h | h
      · exact absurd h.2 h2
      · exact absurd h1 (not_le.mpr h.1)
  · rw [if_pos h2, if_neg h1]
    refine ⟨⟨fun h => absurd h (by decide), fun h => ?_⟩, ⟨fun _ h => ?_, fun _ => rfl⟩,
      fun _ => rfl⟩
    · rcases h with h | h
      · exact absurd h.1 h1
      · exact absurd h2 (not_le.mpr h.2)
    · rcases h with h | h
      · exact absurd h.1 h1
      · exact absurd h2 (not_le.mpr h.2)
  · rw [if_neg h2, if_neg h1]
    exact ⟨⟨fun _ => Or.inr ⟨not_le.mp h1, not_le.mp h2⟩, fun _ => rfl⟩,
      ⟨fun h => absurd h (by decide),
        fun h => absurd (Or.inr ⟨not_le.mp h1, not_le.mp h2⟩) h⟩,
      fun h => absurd h.le h2⟩

/-- Witness for C12: range `[0, 360]`, `v = 350`, `g = 10`: forward `340`,
backward `20`, direction `CD_INCREASING`. -/
theorem looped_best_direction_rule_witness :
    UpdateMethodLooped.ctorValue 1 10 0 360 CD_DECREASING CD_DECREASING
      = some (UpdateMethodLooped.mk (UpdateMethod.mk T_VALUE 10 CD_DECREASING 1)
          false CD_DECREASING 0 360) ∧
    UtilDist 350 10 = 340 ∧
    UtilDist (min 350 10) 0 + UtilDist (max 350 10) 360 = 20 ∧
    (UpdateMethodLooped.mk (UpdateMethod.mk T_VALUE 10 CD_DECREASING 1)
      false CD_DECREASING 0 360)._getBestDirection 350 = CD_INCREASING :=
  ⟨by norm_num [UpdateMethodLooped.ctorValue, UpdateMethod.ctorValue],
   by norm_num [UtilDist, UtilMax, UtilMin],
   by norm_num [UtilDist, UtilMax, UtilMin],
   (looped_best_direction_rule 1 10 0 360 350 CD_DECREASING CD_DECREASING _
      (by norm_num [UpdateMethodLooped.ctorValue, UpdateMethod.ctorValue])).1.mpr
     (Or.inr (by norm_num [UtilDist, UtilMax, UtilMin]))⟩

/-- C13: a looped method built with the override constructor returns the
override from `_getBestDirection` for every value, and the tentative step
handed to `_processResultForValueTarget` by `updateValue` is `wrap v + m` for
an Increasing override and `wrap v - m` for a Decreasing one, where `wrap` is
`_checkValue` and `m = rate * t`. -/
theorem looped_override_direction (rate g lo hi v t : ℚ) (d u : ConstDirection)
    (p : UpdateMethodLooped)
    (hp : UpdateMethodLooped.ctorValueOverride rate g d lo hi u = some p) :
    p._getBestDirection v = d ∧
    (d = CD_INCREASING →
      p.updateValue v t =
        p._processResultForValueTarget (p._checkValue v + rate * t) (p._checkValue v)
          CD_INCREASING) ∧
    (d = CD_DECREASING →
      p.updateValue v t =
        p._processResultForValueTarget (p._checkValue v - rate * t) (p._checkValue v)
          CD_DECREASING) := by
  obtain ⟨_, hpe⟩ := UpdateMethodLooped.ctorValueOverride_eq_some hp
  have hv : p.getHasTargetValue = true := by rw [hpe]; rfl
  have hr : p.getRate = rate := by rw [hpe]; rfl
  have hd : p._getBestDirection v = d := by rw [hpe]; rfl
  refine ⟨hd, fun h => ?_, fun h => ?_⟩
  · rw [UpdateMethodLooped.updateValue_of_value p hv, hd, hr, h, if_pos rfl]
  · rw [UpdateMethodLooped.updateValue_of_value p hv, hd, hr, h, if_neg (by decide)]

/-- Witness for C13: override `CD_DECREASING` on `[0, 360]` from `350` towards
`10`, where the shorter way would be Increasing. -/
theorem looped_override_direction_witness :
    UpdateMethodLooped.ctorValueOverride 1 10 CD_DECREASING 0 360 CD_INCREASING
      = some (UpdateMethodLooped.mk (UpdateMethod.mk T_VALUE 10 CD_INCREASING 1)
          true CD_DECREASING 0 360) ∧
    (UpdateMethodLooped.mk (UpdateMethod.mk T_VALUE 10 CD_INCREASING 1)
      true CD_DECREASING 0 360)._getBestDirection 350 = CD_DECREASING :=
  ⟨by norm_num [UpdateMethodLooped.ctorValueOverride, UpdateMethod.ctorValue],
   (looped_override_direction 1 10 0 360 350 1 CD_DECREASING CD_INCREASING _
      (by norm_num [UpdateMethodLooped.ctorValueOverride, UpdateMethod.ctorValue])).1⟩

/-! ## Claims on the base class: finishing, rate, target kind, construction -/

/-- The value of `getIsFinished` on any method. -/
theorem UpdateMethod.getIsFinished_iff (p : UpdateMethod) (v : ℚ) :
    p.getIsFinished v = true ↔ p.getHasTargetValue = true ∧ v = p.getTargetValue := by
  cases p with
  | mk ty g d r =>
    cases ty <;>
      simp [UpdateMethod.getIsFinished, UpdateMethod.getHasTargetDirection,
        UpdateMethod.getHasTargetValue, UpdateMethod.getTargetValue]

/-- C14: `getIsFinished v` is true if and only if the method has a Value
target `g` and `v = g`; for a method constructed with a Direction target it is
false for every `v`.  Stated for any method object and for each constructor of
the linear and the looped method. -/
theorem getIsFinished_iff_value_target_reached (rate g lo hi v : ℚ)
    (d u o : ConstDirection) :
    (∀ p : UpdateMethod,
      p.getIsFinished v = true ↔ p.getHasTargetValue = true ∧ v = p.getTargetValue) ∧
    ((UpdateMethodLinear.ctorValue rate g u).getIsFinished v = true ↔ v = g) ∧
    (UpdateMethodLinear.ctorDirection rate d).getIsFinished v = false ∧
    (∀ p, UpdateMethodLooped.ctorValue rate g lo hi u o = some p →
      (p.getIsFinished v = true ↔ v = g)) ∧
    (∀ p, UpdateMethodLooped.ctorValueOverride rate g d lo hi u = some p →
      (p.getIsFinished v = true ↔ v = g)) ∧
    (∀ p, UpdateMethodLooped.ctorDirection rate d lo hi o = some p →
      p.getIsFinished v = false) := by
  refine ⟨fun p => UpdateMethod.getIsFinished_iff p v, ?_, ?_, fun p hp => ?_,
    fun p hp => ?_, fun p hp => ?_⟩
  · simp [UpdateMethodLinear.getIsFinished, UpdateMethod.getIsFinished,
      UpdateMethodLinear.ctorValue, UpdateMethod.ctorValue,
      UpdateMethod.getHasTargetDirection, UpdateMethod.getTargetValue]
  · simp [UpdateMethodLinear.getIsFinished, UpdateMethod.getIsFinished,
      UpdateMethodLinear.ctorDirection, UpdateMethod.ctorDirection,
      UpdateMethod.getHasTargetDirection]
  · obtain ⟨_, hpe⟩ := UpdateMethodLooped.ctorValue_eq_some hp
    subst hpe
    simp [UpdateMethodLooped.getIsFinished, UpdateMethod.getIsFinished,
      UpdateMethod.getHasTargetDirection, UpdateMethod.getTargetValue]
  · obtain ⟨_, hpe⟩ := UpdateMethodLooped.ctorValueOverride_eq_some hp
    subst hpe
    simp [UpdateMethodLooped.getIsFinished, UpdateMethod.getIsFinished,
      UpdateMethod.getHasTargetDirection, UpdateMethod.getTargetValue]
  · obtain ⟨_, hpe⟩ := UpdateMethodLooped.ctorDirection_eq_some hp
    subst hpe
    simp [UpdateMethodLooped.getIsFinished, UpdateMethod.getIsFinished,
      UpdateMethod.getHasTargetDirection]

/-- Witness for C14: the looped method with Value target `10` on `[0, 360]`
is finished at `10`. -/
theorem getIsFinished_iff_value_target_reached_witness :
    UpdateMethodLooped.ctorValue 1 10 0 360 CD_INCREASING CD_INCREASING
      = some (UpdateMethodLooped.mk (UpdateMethod.mk T_VALUE 10 CD_INCREASING 1)
          false CD_INCREASING 0 360) ∧
    (UpdateMethodLooped.mk (UpdateMethod.mk T_VALUE 10 CD_INCREASING 1)
      false CD_INCREASING 0 360).getIsFinished 10 = true :=
  ⟨by norm_num [UpdateMethodLooped.ctorValue, UpdateMethod.ctorValue],
   ((getIsFinished_iff_value_target_reached 1 10 0 360 10
      CD_INCREASING CD_INCREASING CD_INCREASING).2.2.2.1 _
      (by norm_num [UpdateMethodLooped.ctorValue, UpdateMethod.ctorValue])).mpr rfl⟩

/-- C15: after `setRate r` the rate is `|r|`, hence non-negative and the same
for `r` and `-r`, while the target type, target value and target direction,
and for a looped method `min`, `max` and the override, are unchanged. -/
theorem setRate_stores_magnitude (r : ℚ) :
    (∀ p : UpdateMethod,
      (p.setRate r).getRate = |r| ∧ 0 ≤ (p.setRate r).getRate ∧
      p.setRate (-r) = p.setRate r ∧
      (p.setRate r).mTargetType = p.mTargetType ∧
      (p.setRate r).getHasTargetValue = p.getHasTargetValue ∧
      (p.setRate r).getHasTargetDirection = p.getHasTargetDirection ∧
      (p.setRate r).getTargetValue = p.getTargetValue ∧
      (p.setRate r).getTargetDirection = p.getTargetDirection) ∧
    (∀ p : UpdateMethodLinear,
      (p.setRate r).getRate = |r| ∧
      (p.setRate r).toUpdateMethod = p.toUpdateMethod.setRate r) ∧
    (∀ p : UpdateMethodLooped,
      (p.setRate r).getRate = |r| ∧
      (p.setRate r).toUpdateMethod = p.toUpdateMethod.setRate r ∧
      (p.setRate r).getMin = p.getMin ∧ (p.setRate r).getMax = p.getMax ∧
      (p.setRate r).getIsOverrideEnabled = p.getIsOverrideEnabled ∧
      (p.setRate r).getDirectionOverride = p.getDirectionOverride) := by
  refine ⟨fun p => ⟨?_, ?_, ?_, rfl, rfl, rfl, rfl, rfl⟩, fun p => ⟨?_, rfl⟩,
    fun p => ⟨?_, rfl, rfl, rfl, rfl, rfl⟩⟩
  · simp [UpdateMethod.setRate, UpdateMethod.getRate, UtilAbs_eq_abs]
  · simp [UpdateMethod.setRate, UpdateMethod.getRate, UtilAbs_eq_abs]
  · simp [UpdateMethod.setRate, UtilAbs_eq_abs]
  · simp [UpdateMethodLinear.setRate, UpdateMethod.setRate, UpdateMethod.getRate,
      UtilAbs_eq_abs]
  · simp [UpdateMethodLooped.setRate, UpdateMethod.setRate, UpdateMethod.getRate,
      UtilAbs_eq_abs]

/-- C16 (evaluation at the failing input): the constructors store the rate
argument as given, so a linear method constructed with rate `-1` and
`CD_INCREASING` has `getRate = -1`, its magnitude for one second is `-1`, and
`updateValue 0 1 = -1`; the same holds for the looped constructors.  Once
`setRate` has been called the rate is non-negative. -/
theorem constructor_keeps_negative_rate (u o : ConstDirection) :
    (UpdateMethodLinear.ctorDirection (-1) CD_INCREASING).getRate = -1 ∧
    (UpdateMethodLinear.ctorDirection (-1) CD_INCREASING).getRate * 1 < 0 ∧
    (UpdateMethodLinear.ctorDirection (-1) CD_INCREASING).updateValue 0 1 = -1 ∧
    (UpdateMethodLinear.ctorValue (-1) 10 u).getRate = -1 ∧
    (UpdateMethodLooped.ctorDirection (-1) CD_INCREASING 0 360 o).map
      (fun p => p.getRate) = some (-1) ∧
    (UpdateMethodLooped.ctorValue (-1) 10 0 360 u o).map
      (fun p => p.getRate) = some (-1) ∧
    (UpdateMethodLooped.ctorValueOverride (-1) 10 CD_INCREASING 0 360 u).map
      (fun p => p.getRate) = some (-1) ∧
    (∀ (p : UpdateMethod) (r : ℚ), 0 ≤ (p.setRate r).getRate) := by
  refine ⟨rfl, ?_, ?_, rfl, ?_, ?_, ?_, fun p r => ?_⟩
  · norm_num [UpdateMethodLinear.ctorDirection, UpdateMethod.ctorDirection,
      UpdateMethod.getRate]
  · simp [UpdateMethodLinear.updateValue, UpdateMethod.updateValue,
      UpdateMethodLinear.hooks, UpdateMethodLinear.ctorDirection,
      UpdateMethod.ctorDirection, UpdateMethod.getHasTargetValue,
      UpdateMethod.getRate, UpdateMethod.getTargetDirection]
  · norm_num [UpdateMethodLooped.ctorDirection, UpdateMethod.ctorDirection,
      UpdateMethod.getRate]
  · norm_num [UpdateMethodLooped.ctorValue, UpdateMethod.ctorValue,
      UpdateMethod.getRate]
  · norm_num [UpdateMethodLooped.ctorValueOverride, UpdateMethod.ctorValue,
      UpdateMethod.getRate]
  · simp [UpdateMethod.setRate, UpdateMethod.getRate, UtilAbs_eq_abs]

/-- C17: exactly one of `getHasTargetValue` and `getHasTargetDirection` holds,
the one matching the constructor used, and `setRate` keeps both.  The target
type is a `const` member; `updateValue` and `getIsFinished` assign no member
and are functions of the method that return only a value. -/
theorem target_kind_exclusive_and_fixed (rate g lo hi r : ℚ) (d u o : ConstDirection) :
    (∀ p : UpdateMethod,
      (p.getHasTargetValue = true ∧ p.getHasTargetDirection = false) ∨
      (p.getHasTargetValue = false ∧ p.getHasTargetDirection = true)) ∧
    ((UpdateMethodLinear.ctorValue rate g u).getHasTargetValue = true ∧
      (UpdateMethodLinear.ctorValue rate g u).getHasTargetDirection = false) ∧
    ((UpdateMethodLinear.ctorDirection rate d).getHasTargetValue = false ∧
      (UpdateMethodLinear.ctorDirection rate d).getHasTargetDirection = true) ∧
    (∀ p, UpdateMethodLooped.ctorValue rate g lo hi u o = some p →
      p.getHasTargetValue = true ∧ p.getHasTargetDirection = false) ∧
    (∀ p, UpdateMethodLooped.ctorValueOverride rate g d lo hi u = some p →
      p.getHasTargetValue = true ∧ p.getHasTargetDirection = false) ∧
    (∀ p, UpdateMethodLooped.ctorDirection rate d lo hi o = some p →
      p.getHasTargetValue = false ∧ p.getHasTargetDirection = true) ∧
    (∀ p : UpdateMethod,
      (p.setRate r).getHasTargetValue = p.getHasTargetValue ∧
      (p.setRate r).getHasTargetDirection = p.getHasTargetDirection) ∧
    (∀ p : UpdateMethodLinear,
      (p.setRate r).getHasTargetValue = p.getHasTargetValue ∧
      (p.setRate r).getHasTargetDirection = p.getHasTargetDirection) ∧
    (∀ p : UpdateMethodLooped,
      (p.setRate r).getHasTargetValue = p.getHasTargetValue ∧
      (p.setRate r).getHasTargetDirection = p.getHasTargetDirection) := by
  refine ⟨fun p => ?_, ⟨rfl, rfl⟩, ⟨rfl, rfl⟩, fun p hp => ?_, fun p hp => ?_,
    fun p hp => ?_, fun p => ⟨rfl, rfl⟩, fun p => ⟨rfl, rfl⟩, fun p => ⟨rfl, rfl⟩⟩
  · cases p with
    | mk ty g d r =>
      cases ty
      · exact Or.inr ⟨rfl, rfl⟩
      · exact Or.inl ⟨rfl, rfl⟩
  · obtain ⟨_, hpe⟩ := UpdateMethodLooped.ctorValue_eq_some hp
    subst hpe
    exact ⟨rfl, rfl⟩
  · obtain ⟨_, hpe⟩ := UpdateMethodLooped.ctorValueOverride_eq_some hp
    subst hpe
    exact ⟨rfl, rfl⟩
  · obtain ⟨_, hpe⟩ := UpdateMethodLooped.ctorDirection_eq_some hp
    subst hpe
    exact ⟨rfl, rfl⟩

/-- Witness for C17: the looped method with a Direction target on `[0, 360]`
has a target direction and no target value. -/
theorem target_kind_exclusive_and_fixed_witness :
    UpdateMethodLooped.ctorDirection 1 CD_INCREASING 0 360 CD_INCREASING
      = some (UpdateMethodLooped.mk (UpdateMethod.mk T_DIRECTION 0 CD_INCREASING 1)
          false CD_INCREASING 0 360) ∧
    (UpdateMethodLooped.mk (UpdateMethod.mk T_DIRECTION 0 CD_INCREASING 1)
      false CD_INCREASING 0 360).getHasTargetValue = false ∧
    (UpdateMethodLooped.mk (UpdateMethod.mk T_DIRECTION 0 CD_INCREASING 1)
      false CD_INCREASING 0 360).getHasTargetDirection = true :=
  ⟨by norm_num [UpdateMethodLooped.ctorDirection, UpdateMethod.ctorDirection],
   (target_kind_exclusive_and_fixed 1 10 0 360 2
      CD_INCREASING CD_INCREASING CD_INCREASING).2.2.2.2.2.1 _
      (by norm_num [UpdateMethodLooped.ctorDirection, UpdateMethod.ctorDirection])⟩

/-- C18: each of the three constructors of the looped method succeeds if and
only if `min < max`; with `min ≥ max` the assertion fails and no method is
produced. -/
theorem looped_construction_requires_min_lt_max (rate g lo hi : ℚ)
    (d u o : ConstDirection) :
    ((UpdateMethodLooped.ctorDirection rate d lo hi o).isSome = true ↔ lo < hi) ∧
    ((UpdateMethodLooped.ctorValue rate g lo hi u o).isSome = true ↔ lo < hi) ∧
    ((UpdateMethodLooped.ctorValueOverride rate g d lo hi u).isSome = true ↔ lo < hi) ∧
    (lo ≥ hi →
      UpdateMethodLooped.ctorDirection rate d lo hi o = none ∧
      UpdateMethodLooped.ctorValue rate g lo hi u o = none ∧
      UpdateMethodLooped.ctorValueOverride rate g d lo hi u = none) := by
  unfold UpdateMethodLooped.ctorDirection UpdateMethodLooped.ctorValue
    UpdateMethodLooped.ctorValueOverride
  by_cases h : lo < hi
  · rw [if_pos h, if_pos h, if_pos h]
    exact ⟨⟨fun _ => h, fun _ => rfl⟩, ⟨fun _ => h, fun _ => rfl⟩,
      ⟨fun _ => h, fun _ => rfl⟩, fun h2 => absurd h (not_lt.mpr h2)⟩
  · rw [if_neg h, if_neg h, if_neg h]
    exact ⟨⟨fun h2 => absurd h2 (by decide), fun h2 => absurd h2 h⟩,
      ⟨fun h2 => absurd h2 (by decide), fun h2 => absurd h2 h⟩,
      ⟨fun h2 => absurd h2 (by decide), fun h2 => absurd h2 h⟩,
      fun _ => ⟨rfl, rfl, rfl⟩⟩

/-- Witness for C18: with `min = max = 5` no constructor produces a method. -/
theorem looped_construction_requires_min_lt_max_witness :
    (5 : ℚ) ≥ 5 ∧
    UpdateMethodLooped.ctorDirection 1 CD_INCREASING 5 5 CD_INCREASING = none ∧
    UpdateMethodLooped.ctorValue 1 5 5 5 CD_INCREASING CD_INCREASING = none ∧
    UpdateMethodLooped.ctorValueOverride 1 5 CD_INCREASING 5 5 CD_INCREASING = none :=
  ⟨le_refl _,
   (looped_construction_requires_min_lt_max 1 5 5 5
      CD_INCREASING CD_INCREASING CD_INCREASING).2.2.2 (le_refl _)⟩

/-! ## Claims on the value-holder and the list -/

/-- A paused holder ignores added time. -/
theorem UpdatedValue.addTime_of_paused (h : UpdatedValue) (hp : h.getIsPaused = true)
    (t : ℚ) : h.addTime t = h := by
  simp [UpdatedValue.addTime, hp]

/-- An unpaused holder responds to added time with `_addTime`. -/
theorem UpdatedValue.addTime_of_not_paused (h : UpdatedValue)
    (hp : h.getIsPaused = false) (t : ℚ) : h.addTime t = h._addTime t := by
  simp [UpdatedValue.addTime, hp]

/-- A holder without a method ignores added time. -/
theorem UpdatedValue.addTime_of_no_method (h : UpdatedValue)
    (hm : h.getMethod = none) (t : ℚ) : h.addTime t = h := by
  have hu : h.getIsUpdating = false := by
    unfold UpdatedValue.getIsUpdating
    unfold UpdatedValue.getMethod at hm
    rw [hm]
  unfold UpdatedValue.addTime UpdatedValue._addTime
  rw [hu]
  simp

/-- An item that `addTime` leaves unchanged is unchanged by the loop of the
list over any pointers. -/
theorem UpdatedObjectList.foldl_addTime_fixed (t : ℚ) (j : ℕ) (h : UpdatedValue)
    (hfix : h.addTime t = h) (l : List ℕ) :
    ∀ items : ℕ → UpdatedValue, items j = h →
      l.foldl (fun its i => Function.update its i ((its i).addTime t)) items j = h := by
  induction l with
  | nil => intro items hj; exact hj
  | cons i l ih =>
    intro items hj
    rw [List.foldl_cons]
    apply ih
    by_cases hij : j = i
    · subst hij
      rw [Function.update_same, hj, hfix]
    · rw [Function.update_noteq hij, hj]

/-- C19: `addTime` on a paused holder leaves the holder (value, method and
paused flag) unchanged; and pausing, adding `t`, unpausing and adding `t` again
leaves what a single `addTime t` leaves on the unpaused holder. -/
theorem holder_pause_semantics (h : UpdatedValue) (t : ℚ) :
    (h.getIsPaused = true →
      h.addTime t = h ∧ (h.addTime t).getValue = h.getValue ∧
      (h.addTime t).getMethod = h.getMethod ∧ (h.addTime t).getIsPaused = true) ∧
    ((((h.setIsPaused true).addTime t).setIsPaused false).addTime t
      = (h.setIsPaused false).addTime t) ∧
    (h.getIsPaused = false →
      ((((h.setIsPaused true).addTime t).setIsPaused false).addTime t).getValue
        = (h.addTime t).getValue) := by
  have hseq : (((h.setIsPaused true).addTime t).setIsPaused false).addTime t
      = (h.setIsPaused false).addTime t := by
    rw [UpdatedValue.addTime_of_paused (h.setIsPaused true) rfl]
    rfl
  refine ⟨fun hp => ?_, hseq, fun hp => ?_⟩
  · rw [UpdatedValue.addTime_of_paused h hp]
    exact ⟨rfl, rfl, rfl, hp⟩
  · rw [hseq]
    have : h.setIsPaused false = h := by
      cases h with
      | mk paused m v =>
        simp only [UpdatedValue.getIsPaused] at hp
        subst hp
        rfl
    rw [this]

/-- Witness for C19: a paused holder with value `1` and an Increasing linear
method of rate `1/2` keeps its value `1` under `addTime 5`. -/
theorem holder_pause_semantics_witness :
    (UpdatedValue.mk true
      (some (UpdateMethodPtr.linear (UpdateMethodLinear.ctorDirection (1/2) CD_INCREASING)))
      1).getIsPaused = true ∧
    ((UpdatedValue.mk true
      (some (UpdateMethodPtr.linear (UpdateMethodLinear.ctorDirection (1/2) CD_INCREASING)))
      1).addTime 5).getValue = 1 :=
  ⟨rfl,
   ((holder_pause_semantics (UpdatedValue.mk true
      (some (UpdateMethodPtr.linear (UpdateMethodLinear.ctorDirection (1/2) CD_INCREASING)))
      1) 5).1 rfl).2.1⟩

/-- C20: a holder whose method is null is not updating, and `addTime`,
directly or through a list (paused or not, containing it or not), leaves it
with its value; `UpdatedValueBasic` and `UpdatedValueRef` start in that
state with their initial value. -/
theorem holder_without_method_is_inert (h : UpdatedValue) (hm : h.getMethod = none)
    (t : ℚ) :
    h.getIsUpdating = false ∧
    h.addTime t = h ∧ (h.addTime t).getValue = h.getValue ∧
    (∀ (l : UpdatedObjectList) (items : ℕ → UpdatedValue) (i : ℕ), items i = h →
      l.addTime t items i = h ∧ (l.addTime t items i).getValue = h.getValue) ∧
    (∀ v : ℚ, (UpdatedValueBasic.ctor v).getMethod = none ∧
      (UpdatedValueBasic.ctor v).getValue = v ∧
      (UpdatedValueRef.ctor v).getMethod = none ∧
      (UpdatedValueRef.ctor v).getValue = v) := by
  have hfix : h.addTime t = h := UpdatedValue.addTime_of_no_method h hm t
  have hlist : ∀ (l : UpdatedObjectList) (items : ℕ → UpdatedValue) (i : ℕ),
      items i = h → l.addTime t items i = h := by
    intro l items i hi
    unfold UpdatedObjectList.addTime
    split_ifs
    · exact UpdatedObjectList.foldl_addTime_fixed t i h hfix l.mList items hi
    · exact hi
  refine ⟨?_, hfix, by rw [hfix], fun l items i hi => ?_, fun v => ⟨rfl, rfl, rfl, rfl⟩⟩
  · unfold UpdatedValue.getIsUpdating
    unfold UpdatedValue.getMethod at hm
    rw [hm]
  · rw [hlist l items i hi]
    exact ⟨rfl, rfl⟩

/-- Witness for C20: the two holders of the example, both with value `1` and
no method, in one list: after `addTime 50` the value is still `1`. -/
theorem holder_without_method_is_inert_witness :
    (UpdatedValueBasic.ctor 1).getMethod = none ∧
    (((UpdatedObjectList.ctor.add 0).add 1).addTime 50
      (fun i => if i = 0 then UpdatedValueBasic.ctor 1 else UpdatedValueRef.ctor 1)
      0).getValue = 1 :=
  ⟨rfl,
   ((holder_without_method_is_inert (UpdatedValueBasic.ctor 1) rfl 50).2.2.2.1
      ((UpdatedObjectList.ctor.add 0).add 1)
      (fun i => if i = 0 then UpdatedValueBasic.ctor 1 else UpdatedValueRef.ctor 1)
      0 rfl).2⟩

/-! ## Claims on the tick of a holder and of a list -/

/-- The value after `_addTime` on a holder with a method installed. -/
theorem UpdatedValue.addTime_of_method (h : UpdatedValue) (p : UpdateMethodPtr)
    (hp : h.getIsPaused = false) (hm : h.getMethod = some p) (t : ℚ) :
    h.addTime t =
      if p.getIsFinished h.getValue then h
      else h.setValue (p.updateValue h.getValue t) := by
  unfold UpdatedValue.getMethod at hm
  rw [UpdatedValue.addTime_of_not_paused h hp]
  unfold UpdatedValue._addTime UpdatedValue.getIsUpdating
  rw [hm]
  cases hf : p.getIsFinished h.getValue <;> simp [hf]

/-- The loop of the list over pointers without repetition gives `addTime`
once to each item pointed to and leaves the other items alone. -/
theorem UpdatedObjectList.foldl_addTime_nodup (t : ℚ) (l : List ℕ) (hl : l.Nodup) :
    ∀ (items : ℕ → UpdatedValue) (i : ℕ),
      l.foldl (fun its k => Function.update its k ((its k).addTime t)) items i
        = if i ∈ l then (items i).addTime t else items i := by
  induction l with
  | nil => intro items i; simp
  | cons a l ih =>
    intro items i
    rw [List.foldl_cons, ih (List.nodup_cons.mp hl).2]
    have ha : a ∉ l := (List.nodup_cons.mp hl).1
    by_cases hia : i = a
    · subst hia
      simp [ha]
    · simp [hia, Function.update_noteq hia]

/-- The empty list has no repeated pointer. -/
theorem UpdatedObjectList.ctor_nodup : UpdatedObjectList.ctor.mList.Nodup :=
  List.nodup_nil

/-- Adding an item keeps the list free of repeated pointers. -/
theorem UpdatedObjectList.add_nodup (l : UpdatedObjectList) (hl : l.mList.Nodup)
    (x : ℕ) : (l.add x).mList.Nodup := by
  unfold UpdatedObjectList.add UpdatedObjectList.contains
  by_cases hx : x ∈ l.mList
  · have : (l.mList.any fun y => y == x) = true := by
      rw [List.any_eq_true]
      exact ⟨x, hx, by simp⟩
    simp [this, hl]
  · have : (l.mList.any fun y => y == x) = false := by
      rw [Bool.eq_false_iff]
      intro h
      rw [List.any_eq_true] at h
      obtain ⟨y, hy, hyx⟩ := h
      have : y = x := by simpa using hyx
      exact hx (this ▸ hy)
    simp only [this, Bool.not_false, if_true]
    rw [List.nodup_append]
    refine ⟨hl, List.nodup_singleton x, ?_⟩
    intro y hy hy2
    rw [List.mem_singleton] at hy2
    exact hx (hy2 ▸ hy)

/-- C21: on an unpaused holder with value `v` and method `p`, `addTime t` sets
the value to `p.updateValue v t` when `p.getIsFinished v` is false and leaves
it when `p.getIsFinished v` is true; hence a holder whose value equals the
Value target of its linear or looped method keeps it under `addTime` with
any elapsed time. -/
theorem holder_tick_contract (h : UpdatedValue) (p : UpdateMethodPtr)
    (hp : h.getIsPaused = false) (hm : h.getMethod = some p) (t : ℚ) :
    (p.getIsFinished h.getValue = false →
      (h.addTime t).getValue = p.updateValue h.getValue t) ∧
    (p.getIsFinished h.getValue = true → h.addTime t = h) ∧
    (∀ q : UpdateMethodLinear, p = UpdateMethodPtr.linear q →
      q.getHasTargetValue = true → h.getValue = q.getTargetValue →
      (h.addTime t).getValue = h.getValue) ∧
    (∀ q : UpdateMethodLooped, p = UpdateMethodPtr.looped q →
      q.getHasTargetValue = true → h.getValue = q.getTargetValue →
      (h.addTime t).getValue = h.getValue) := by
  have key := UpdatedValue.addTime_of_method h p hp hm t
  refine ⟨fun hf => ?_, fun hf => ?_, fun q hq hv hg => ?_, fun q hq hv hg => ?_⟩
  · rw [key, hf]
    rfl
  · rw [key, hf]
    rfl
  · have hf : p.getIsFinished h.getValue = true := by
      rw [hq]
      exact (UpdateMethod.getIsFinished_iff q.toUpdateMethod h.getValue).mpr ⟨hv, hg⟩
    rw [key, hf]
    rfl
  · have hf : p.getIsFinished h.getValue = true := by
      rw [hq]
      exact (UpdateMethod.getIsFinished_iff q.toUpdateMethod h.getValue).mpr ⟨hv, hg⟩
    rw [key, hf]
    rfl

/-- Witness for C21: a holder at `1` with the linear method of rate `1`
towards `10` has value `4` after `addTime 3`. -/
theorem holder_tick_contract_witness :
    (UpdatedValue.mk false
      (some (UpdateMethodPtr.linear (UpdateMethodLinear.ctorValue 1 10 CD_INCREASING)))
      1).getIsPaused = false ∧
    ((UpdatedValue.mk false
      (some (UpdateMethodPtr.linear (UpdateMethodLinear.ctorValue 1 10 CD_INCREASING)))
      1).addTime 3).getValue = 4 :=
  ⟨rfl,
   ((holder_tick_contract
      (UpdatedValue.mk false
        (some (UpdateMethodPtr.linear (UpdateMethodLinear.ctorValue 1 10 CD_INCREASING)))
        1)
      (UpdateMethodPtr.linear (UpdateMethodLinear.ctorValue 1 10 CD_INCREASING))
      rfl rfl 3).1
      (by norm_num [UpdateMethodPtr.getIsFinished, UpdateMethodLinear.getIsFinished,
        UpdateMethod.getIsFinished, UpdateMethodLinear.ctorValue, UpdateMethod.ctorValue,
        UpdateMethod.getHasTargetDirection, UpdateMethod.getTargetValue,
        UpdatedValue.getValue])).trans
     (by
       have h := UpdateMethodLinear.updateValue_ctorValue 1 10 CD_INCREASING 1 3
         (by norm_num)
       simp only [UpdateMethodPtr.updateValue, UpdatedValue.getValue]
       rw [h]
       norm_num)⟩

/-- The loop of `contains` finds exactly the members of the vector. -/
theorem UpdatedObjectList.contains_iff (l : UpdatedObjectList) (x : ℕ) :
    l.contains x = true ↔ x ∈ l.mList := by
  unfold UpdatedObjectList.contains
  rw [List.any_eq_true]
  constructor
  · rintro ⟨y, hy, hyx⟩
    have : y = x := by simpa using hyx
    exact this ▸ hy
  · intro hx
    exact ⟨x, hx, by simp⟩

/-- C22: on an unpaused list without repeated items (which `add` guarantees),
`addTime t` has the effect of `addTime t` once on each contained item and none
on the others, so contained items that are paused stay unchanged; on a paused
list it changes no item. -/
theorem list_forwards_time (l : UpdatedObjectList) (hl : l.mList.Nodup) (t : ℚ)
    (items : ℕ → UpdatedValue) :
    (l.getIsPaused = false →
      ∀ i, l.addTime t items i
        = if l.contains i = true then (items i).addTime t else items i) ∧
    (l.getIsPaused = false →
      ∀ i, (items i).getIsPaused = true → l.addTime t items i = items i) ∧
    (l.getIsPaused = true → l.addTime t items = items) := by
  have key : l.getIsPaused = false →
      ∀ i, l.addTime t items i
        = if l.contains i = true then (items i).addTime t else items i := by
    intro hp i
    unfold UpdatedObjectList.addTime UpdatedObjectList._addTime
    rw [hp]
    simp only [Bool.not_false, if_true]
    rw [UpdatedObjectList.foldl_addTime_nodup t l.mList hl items i]
    by_cases hi : i ∈ l.mList
    · rw [if_pos hi, if_pos ((UpdatedObjectList.contains_iff l i).mpr hi)]
    · rw [if_neg hi, if_neg (fun h => hi ((UpdatedObjectList.contains_iff l i).mp h))]
  refine ⟨key, fun hp i hi => ?_, fun hp => ?_⟩
  · rw [key hp i, UpdatedValue.addTime_of_paused (items i) hi]
    simp
  · unfold UpdatedObjectList.addTime
    rw [hp]
    rfl

/-- Witness for C22: the two holders of the example at `1` with the Increasing
linear method of rate `1/2`, added to one list: after `addTime 5` on the list
the first holds `7/2`. -/
theorem list_forwards_time_witness :
    ((UpdatedObjectList.ctor.add 0).add 1).getIsPaused = false ∧
    (((UpdatedObjectList.ctor.add 0).add 1).addTime 5
      (fun _ => (UpdatedValueBasic.ctor 1).setMethod
        (some (UpdateMethodPtr.linear
          (UpdateMethodLinear.ctorDirection (1/2) CD_INCREASING)))) 0).getValue = 7/2 :=
  ⟨rfl,
   (congrArg UpdatedValue.getValue
     ((list_forwards_time ((UpdatedObjectList.ctor.add 0).add 1)
        (UpdatedObjectList.add_nodup _
          (UpdatedObjectList.add_nodup _ UpdatedObjectList.ctor_nodup 0) 1) 5
        (fun _ => (UpdatedValueBasic.ctor 1).setMethod
          (some (UpdateMethodPtr.linear
            (UpdateMethodLinear.ctorDirection (1/2) CD_INCREASING))))).1 rfl 0)).trans
     (by
       simp [UpdatedObjectList.contains, UpdatedObjectList.add, UpdatedObjectList.ctor,
         UpdatedValue.addTime, UpdatedValue._addTime, UpdatedValue.getIsUpdating,
         UpdatedValue.setMethod, UpdatedValue.getIsPaused, UpdatedValue.getValue,
         UpdatedValue.setValue, UpdatedValueBasic.ctor,
         UpdateMethodPtr.getIsFinished, UpdateMethodPtr.updateValue,
         UpdateMethodLinear.getIsFinished, UpdateMethod.getIsFinished,
         UpdateMethodLinear.updateValue, UpdateMethod.updateValue,
         UpdateMethodLinear.hooks, UpdateMethodLinear.ctorDirection,
         UpdateMethod.ctorDirection, UpdateMethod.getHasTargetValue,
         UpdateMethod.getHasTargetDirection, UpdateMethod.getRate,
         UpdateMethod.getTargetDirection]
       norm_num)⟩

/-! ## Claims on the looped method: shorter way, wrap-around, agreement with linear -/

/-- Inside the range, the backward distance of `_getBestDirection` is the
width of the range minus the forward distance. -/
theorem UtilDist_backward_eq (lo hi v g : ℚ) (hv : lo ≤ v ∧ v ≤ hi)
    (hg : lo ≤ g ∧ g ≤ hi) :
    UtilDist (min v g) lo + UtilDist (max v g) hi = (hi - lo) - |v - g| := by
  rw [UtilDist_eq_abs, UtilDist_eq_abs]
  rcases le_total v g with h | h
  · rw [min_eq_left h, max_eq_right h, abs_of_nonneg (by linarith : (0 : ℚ) ≤ v - lo),
      abs_of_nonpos (by linarith : g - hi ≤ 0), abs_of_nonpos (by linarith : v - g ≤ 0)]
    ring
  · rw [min_eq_right h, max_eq_left h, abs_of_nonneg (by linarith : (0 : ℚ) ≤ g - lo),
      abs_of_nonpos (by linarith : v - hi ≤ 0), abs_of_nonneg (by linarith : (0 : ℚ) ≤ v - g)]
    ring

/-- The best direction of a method built without override, for a value and a
target inside the range, in terms of the forward distance `|v - g|`. -/
theorem UpdateMethodLooped.getBestDirection_of_mem {rate g lo hi : ℚ}
    {u o : ConstDirection} {p : UpdateMethodLooped}
    (hp : UpdateMethodLooped.ctorValue rate g lo hi u o = some p)
    (v : ℚ) (hv : lo ≤ v ∧ v ≤ hi) (hg : lo ≤ g ∧ g ≤ hi) :
    p._getBestDirection v =
      if |v - g| ≤ (hi - lo) - |v - g| then
        (if v ≤ g then CD_INCREASING else CD_DECREASING)
      else
        (if v ≤ g then CD_DECREASING else CD_INCREASING) := by
  obtain ⟨_, hpe⟩ := UpdateMethodLooped.ctorValue_eq_some hp
  have ho : p.getIsOverrideEnabled = false := by rw [hpe]; rfl
  have hgt : p.getTargetValue = g := by rw [hpe]; rfl
  have hmin : p.getMin = lo := by rw [hpe]; rfl
  have hmax : p.getMax = hi := by rw [hpe]; rfl
  rw [UpdateMethodLooped.getBestDirection_no_override p ho, hgt, hmin, hmax,
    UtilMin_eq_min, UtilMax_eq_max, UtilDist_backward_eq lo hi v g hv hg, UtilDist_eq_abs]

/-- C23: without override, for `v` and `g` inside `[lo, hi]`, the backward
distance is `(hi - lo) - forward` with `forward = |v - g|`, and the distance
from `v` to `g` on the circle in the direction returned by `_getBestDirection`
(Increasing: `g - v` if `v ≤ g`, else `(hi - v) + (g - lo)`; Decreasing:
`v - g` if `g ≤ v`, else `(v - lo) + (hi - g)`) is
`min forward ((hi - lo) - forward)`, never longer than the opposite way. -/
theorem looped_best_direction_is_shorter (rate g lo hi v : ℚ) (u o : ConstDirection)
    (p : UpdateMethodLooped)
    (hp : UpdateMethodLooped.ctorValue rate g lo hi u o = some p)
    (hv : lo ≤ v ∧ v ≤ hi) (hg : lo ≤ g ∧ g ≤ hi) :
    UtilDist v g = |v - g| ∧
    UtilDist (min v g) lo + UtilDist (max v g) hi = (hi - lo) - |v - g| ∧
    (p._getBestDirection v = CD_INCREASING →
      (if v ≤ g then g - v else (hi - v) + (g - lo))
        = min |v - g| ((hi - lo) - |v - g|) ∧
      (if v ≤ g then g - v else (hi - v) + (g - lo))
        ≤ (if g ≤ v then v - g else (v - lo) + (hi - g))) ∧
    (p._getBestDirection v = CD_DECREASING →
      (if g ≤ v then v - g else (v - lo) + (hi - g))
        = min |v - g| ((hi - lo) - |v - g|) ∧
      (if g ≤ v then v - g else (v - lo) + (hi - g))
        ≤ (if v ≤ g then g - v else (hi - v) + (g - lo))) := by
  have hdir := UpdateMethodLooped.getBestDirection_of_mem hp v hv hg
  refine ⟨UtilDist_eq_abs v g, UtilDist_backward_eq lo hi v g hv hg, fun hd => ?_,
    fun hd => ?_⟩
  · rw [hdir] at hd
    by_cases h1 : v ≤ g
    · have ha : |v - g| = g - v := by
        rw [abs_of_nonpos (by linarith)]; ring
      rw [ha] at hd ⊢
      by_cases h2 : g - v ≤ (hi - lo) - (g - v)
      · rw [if_pos h1, min_eq_left h2]
        refine ⟨rfl, ?_⟩
        by_cases h3 : g ≤ v
        · rw [if_pos h3]; linarith
        · rw [if_neg h3]; linarith
      · rw [if_neg h2, if_pos h1] at hd
        exact absurd hd (by decide)
    · have hgv : g < v := not_le.mp h1
      have ha : |v - g| = v - g := abs_of_nonneg (by linarith)
      rw [ha] at hd ⊢
      by_cases h2 : v - g ≤ (hi - lo) - (v - g)
      · rw [if_pos h2, if_neg h1] at hd
        exact absurd hd (by decide)
      · rw [if_neg h1, if_pos hgv.le, min_eq_right (not_le.mp h2).le]
        constructor
        · ring
        · linarith [not_le.mp h2]
  · rw [hdir] at hd
    by_cases h1 : v ≤ g
    · have ha : |v - g| = g - v := by
        rw [abs_of_nonpos (by linarith)]; ring
      rw [ha] at hd ⊢
      by_cases h2 : g - v ≤ (hi - lo) - (g - v)
      · rw [if_pos h2, if_pos h1] at hd
        exact absurd hd (by decide)
      · have hvg : ¬ g ≤ v := by
          intro h3
          have : g - v = 0 := by linarith
          rw [this] at h2
          exact h2 (by linarith)
        rw [if_neg hvg, if_pos h1, min_eq_right (not_le.mp h2).le]
        constructor
        · ring
        · linarith [not_le.mp h2]
    · have hgv : g < v := not_le.mp h1
      have ha : |v - g| = v - g := abs_of_nonneg (by linarith)
      rw [ha] at hd ⊢
      by_cases h2 : v - g ≤ (hi - lo) - (v - g)
      · rw [if_pos hgv.le, if_neg h1, min_eq_left h2]
        exact ⟨rfl, by linarith⟩
      · rw [if_neg h2, if_neg h1] at hd
        exact absurd hd (by decide)

/-- Witness for C23: range `[0, 360]`, `v = 350`, `g = 10`: Increasing, and the
way round through `360` has length `20 = min 340 20`. -/
theorem looped_best_direction_is_shorter_witness :
    UpdateMethodLooped.ctorValue 1 10 0 360 CD_DECREASING CD_DECREASING
      = some (UpdateMethodLooped.mk (UpdateMethod.mk T_VALUE 10 CD_DECREASING 1)
          false CD_DECREASING 0 360) ∧
    ((0 : ℚ) ≤ 350 ∧ (350 : ℚ) ≤ 360) ∧ ((0 : ℚ) ≤ 10 ∧ (10 : ℚ) ≤ 360) ∧
    (UpdateMethodLooped.mk (UpdateMethod.mk T_VALUE 10 CD_DECREASING 1)
      false CD_DECREASING 0 360)._getBestDirection 350 = CD_INCREASING ∧
    (if (350 : ℚ) ≤ 10 then (10 : ℚ) - 350 else (360 - 350) + (10 - 0))
      = min |(350 : ℚ) - 10| ((360 - 0) - |(350 : ℚ) - 10|) :=
  ⟨by norm_num [UpdateMethodLooped.ctorValue, UpdateMethod.ctorValue],
   by norm_num, by norm_num,
   by norm_num [UpdateMethodLooped._getBestDirection,
     UpdateMethodLooped.getIsOverrideEnabled, UpdateMethodLooped.getMin,
     UpdateMethodLooped.getMax, UpdateMethod.getTargetValue, UtilDist, UtilMax, UtilMin],
   ((looped_best_direction_is_shorter 1 10 0 360 350 CD_DECREASING CD_DECREASING
      (UpdateMethodLooped.mk (UpdateMethod.mk T_VALUE 10 CD_DECREASING 1)
        false CD_DECREASING 0 360)
      (by norm_num [UpdateMethodLooped.ctorValue, UpdateMethod.ctorValue])
      (by norm_num) (by norm_num)).2.2.1
      (by norm_num [UpdateMethodLooped._getBestDirection,
        UpdateMethodLooped.getIsOverrideEnabled, UpdateMethodLooped.getMin,
        UpdateMethodLooped.getMax, UpdateMethod.getTargetValue, UtilDist, UtilMax,
        UtilMin])).1⟩

/-- Normalisation leaves a value inside the range alone. -/
theorem UpdateMethodLooped.checkValue_of_mem (p : UpdateMethodLooped)
    (h : p.getMin < p.getMax) (v : ℚ) (hv : p.getMin ≤ v ∧ v ≤ p.getMax) :
    p._checkValue v = v := by
  rw [UpdateMethodLooped.checkValue_eq p h, if_neg (not_lt.mpr hv.2),
    if_neg (not_lt.mpr hv.1)]

/-- The check of a result that stayed inside the range. -/
theorem UpdateMethodLooped.processResultForValueTarget_of_mem (p : UpdateMethodLooped)
    (h : p.getMin < p.getMax) (r o : ℚ) (d : ConstDirection)
    (hr : p.getMin ≤ r ∧ r ≤ p.getMax) :
    p._processResultForValueTarget r o d =
      if min o r ≤ p.getTargetValue ∧ p.getTargetValue ≤ max o r then p.getTargetValue
      else r := by
  unfold UpdateMethodLooped._processResultForValueTarget
  have hin : UtilRangeCheck r p.getMin p.getMax = true := by
    rw [UtilRangeCheck_iff, min_eq_left h.le, max_eq_right h.le]
    exact hr
  rw [if_pos hin]
  by_cases hc : UtilRangeCheck p.getTargetValue o r = true
  · rw [if_pos hc, if_pos ((UtilRangeCheck_iff _ _ _).mp hc)]
  · rw [if_neg hc, if_neg (fun h2 => hc ((UtilRangeCheck_iff _ _ _).mpr h2))]

/-- One tick of the linear method with a Direction target. -/
theorem UpdateMethodLinear.updateValue_ctorDirection (rate : ℚ) (d : ConstDirection)
    (v t : ℚ) :
    (UpdateMethodLinear.ctorDirection rate d).updateValue v t =
      if d = CD_INCREASING then v + rate * t else v - rate * t := by
  simp [UpdateMethodLinear.updateValue, UpdateMethod.updateValue,
    UpdateMethodLinear.hooks, UpdateMethodLinear.ctorDirection,
    UpdateMethod.ctorDirection, UpdateMethod.getHasTargetValue,
    UpdateMethod.getRate, UpdateMethod.getTargetDirection]

/-- C25: while the step stays inside the range (`lo ≤ v - m` and `v + m ≤ hi`
with `m = rate * t ≥ 0`), the looped method without override, with `v` and the
Value target `g` inside `[lo, hi]` and `forward ≤ backward`, returns what the
linear method with the same rate and target returns; likewise for a Direction
target. -/
theorem looped_agrees_with_linear_inside_range (rate g lo hi v t : ℚ)
    (d u u2 o : ConstDirection)
    (hv : lo ≤ v ∧ v ≤ hi) (hm : 0 ≤ rate * t)
    (hlo : lo ≤ v - rate * t) (hhi : v + rate * t ≤ hi) :
    (∀ p, UpdateMethodLooped.ctorValue rate g lo hi u o = some p →
      lo ≤ g ∧ g ≤ hi →
      UtilDist v g ≤ UtilDist (min v g) lo + UtilDist (max v g) hi →
      p.updateValue v t = (UpdateMethodLinear.ctorValue rate g u2).updateValue v t) ∧
    (∀ q, UpdateMethodLooped.ctorDirection rate d lo hi o = some q →
      q.updateValue v t = (UpdateMethodLinear.ctorDirection rate d).updateValue v t) := by
  constructor
  · intro p hp hg hfb
    obtain ⟨hlt, hpe⟩ := UpdateMethodLooped.ctorValue_eq_some hp
    have hmin : p.getMin = lo := by rw [hpe]; rfl
    have hmax : p.getMax = hi := by rw [hpe]; rfl
    have hgt : p.getTargetValue = g := by rw [hpe]; rfl
    have hr : p.getRate = rate := by rw [hpe]; rfl
    have htv : p.getHasTargetValue = true := by rw [hpe]; rfl
    have hlt2 : p.getMin < p.getMax := by rw [hmin, hmax]; exact hlt
    have hcv : p._checkValue v = v :=
      UpdateMethodLooped.checkValue_of_mem p hlt2 v (by rw [hmin, hmax]; exact hv)
    have hdir := UpdateMethodLooped.getBestDirection_of_mem hp v hv hg
    rw [UtilDist_eq_abs, UtilDist_backward_eq lo hi v g hv hg] at hfb
    rw [if_pos hfb] at hdir
    rw [UpdateMethodLooped.updateValue_of_value p htv, hcv, hr, hdir,
      UpdateMethodLinear.updateValue_ctorValue rate g u2 v t hm]
    by_cases h1 : v ≤ g
    · rw [if_pos h1, if_pos rfl,
        UpdateMethodLooped.processResultForValueTarget_of_mem p hlt2 _ _ _
          (by rw [hmin, hmax]; exact ⟨by linarith [hv.1], hhi⟩), hgt,
        min_eq_left (by linarith), max_eq_right (by linarith)]
      by_cases h2 : g ≤ v + rate * t
      · rw [if_pos ⟨h1, h2⟩]
        by_cases h3 : v < g
        · rw [if_pos h3, min_eq_right h2]
        · rw [if_neg h3, max_eq_right (by linarith)]
      · have h3 : v < g := by linarith [not_le.mp h2]
        rw [if_neg (fun h => h2 h.2), if_pos h3, min_eq_left (not_le.mp h2).le]
    · have hgv : g < v := not_le.mp h1
      rw [if_neg h1, if_neg (by decide),
        UpdateMethodLooped.processResultForValueTarget_of_mem p hlt2 _ _ _
          (by rw [hmin, hmax]; exact ⟨hlo, by linarith [hv.2]⟩), hgt,
        min_eq_right (by linarith), max_eq_left (by linarith),
        if_neg (not_lt.mpr hgv.le)]
      by_cases h2 : v - rate * t ≤ g
      · rw [if_pos ⟨h2, hgv.le⟩, max_eq_right h2]
      · rw [if_neg (fun h => h2 h.1), max_eq_left (not_le.mp h2).le]
  · intro q hq
    obtain ⟨hlt, hqe⟩ := UpdateMethodLooped.ctorDirection_eq_some hq
    have hmin : q.getMin = lo := by rw [hqe]; rfl
    have hmax : q.getMax = hi := by rw [hqe]; rfl
    have hr : q.getRate = rate := by rw [hqe]; rfl
    have hd : q.getTargetDirection = d := by rw [hqe]; rfl
    have htv : q.getHasTargetValue = false := by rw [hqe]; rfl
    have hlt2 : q.getMin < q.getMax := by rw [hmin, hmax]; exact hlt
    have hcv : q._checkValue v = v :=
      UpdateMethodLooped.checkValue_of_mem q hlt2 v (by rw [hmin, hmax]; exact hv)
    rw [UpdateMethodLooped.updateValue_of_direction q htv, hcv, hr, hd,
      UpdateMethodLinear.updateValue_ctorDirection]
    by_cases h1 : d = CD_INCREASING
    · rw [if_pos h1]
      exact UpdateMethodLooped.checkValue_of_mem q hlt2 _
        (by rw [hmin, hmax]; exact ⟨by linarith [hv.1], hhi⟩)
    · rw [if_neg h1]
      exact UpdateMethodLooped.checkValue_of_mem q hlt2 _
        (by rw [hmin, hmax]; exact ⟨hlo, by linarith [hv.2]⟩)

/-- Witness for C25: on `[0, 360]` from `100` towards `180` with magnitude `5`
the looped and the linear method agree. -/
theorem looped_agrees_with_linear_inside_range_witness :
    (UpdateMethodLooped.mk (UpdateMethod.mk T_VALUE 180 CD_DECREASING 5)
      false CD_DECREASING 0 360).updateValue 100 1
      = (UpdateMethodLinear.ctorValue 5 180 CD_INCREASING).updateValue 100 1 :=
  (looped_agrees_with_linear_inside_range 5 180 0 360 100 1
    CD_INCREASING CD_DECREASING CD_INCREASING CD_DECREASING
    (by norm_num) (by norm_num) (by norm_num) (by norm_num)).1
    (UpdateMethodLooped.mk (UpdateMethod.mk T_VALUE 180 CD_DECREASING 5)
      false CD_DECREASING 0 360)
    (by norm_num [UpdateMethodLooped.ctorValue, UpdateMethod.ctorValue])
    (by norm_num) (by norm_num [UtilDist, UtilMax, UtilMin])

/-! ## Claims on normalisation, accessors and unused members -/

/-- The two directions are distinct. -/
theorem ConstDirection.decreasing_ne_increasing : ¬ CD_DECREASING = CD_INCREASING := by
  decide

/-- C26 (evaluation at the failing input): on the range `[0, 360]` with Value
target `180`, no override and magnitude `5`, the input `370` normalises to
`10`; `updateValue` takes the direction of `370` itself, Decreasing, although
the best direction of `10` is Increasing, and returns `5`, while
`updateValue` of the normalised value returns `15`. -/
theorem looped_direction_uses_raw_value (u o : ConstDirection) :
    (UpdateMethodLooped.ctorValue 5 180 0 360 u o).map
      (fun p => (p._checkValue 370, p._getBestDirection 370,
        p._getBestDirection (p._checkValue 370),
        p.updateValue 370 1, p.updateValue (p._checkValue 370) 1))
      = some (10, CD_DECREASING, CD_INCREASING, 5, 15) := by
  norm_num [UpdateMethodLooped.ctorValue,
    UpdateMethod.ctorValue, UpdateMethodLooped.updateValue, UpdateMethod.updateValue,
    UpdateMethodLooped.hooks, UpdateMethod.getHasTargetValue,
    UpdateMethod.getRate, UpdateMethod.getTargetValue,
    UpdateMethodLooped._getBestDirection, UpdateMethodLooped._checkValue,
    UpdateMethodLooped._processResultForValueTarget, UpdateMethodLooped.getMin,
    UpdateMethodLooped.getMax, UpdateMethodLooped.getIsOverrideEnabled,
    UpdateMethodLooped.getDirectionOverride, UtilRangeCheck, UtilBindValueToRange,
    UtilMinMax, UtilDist, UtilMax, UtilMin, ConstDirection.decreasing_ne_increasing]

/-- A zero-elapsed update of a linear method returns the value. -/
theorem UpdateMethodLinear.updateValue_zero_elapsed (p : UpdateMethodLinear) (v : ℚ) :
    p.updateValue v 0 = v := by
  unfold UpdateMethodLinear.updateValue UpdateMethod.updateValue
  simp only [mul_zero, add_zero, sub_zero, ite_self]
  by_cases hv : p.getHasTargetValue = true
  · rw [if_pos hv]
    simp only [UpdateMethodLinear.hooks, UpdateMethodLinear._processResultForValueTarget]
    by_cases hr : UtilRangeCheck p.getTargetValue v v = true
    · rw [if_pos hr]
      rw [UtilRangeCheck_iff, min_self, max_self] at hr
      exact le_antisymm hr.2 hr.1
    · rw [if_neg hr]
  · rw [if_neg hv]
    rfl

/-- A zero-elapsed update of a looped method returns the normalised value. -/
theorem UpdateMethodLooped.updateValue_zero_normalises (p : UpdateMethodLooped)
    (h : p.getMin < p.getMax) (v : ℚ) :
    p.updateValue v 0 = p._checkValue v := by
  have hw := UpdateMethodLooped.checkValue_mem p h v
  by_cases hv : p.getHasTargetValue = true
  · rw [UpdateMethodLooped.updateValue_of_value p hv]
    simp only [mul_zero, add_zero, sub_zero, ite_self]
    rw [UpdateMethodLooped.processResultForValueTarget_of_mem p h _ _ _ hw, min_self,
      max_self]
    by_cases hc : p._checkValue v ≤ p.getTargetValue ∧ p.getTargetValue ≤ p._checkValue v
    · rw [if_pos hc]
      exact le_antisymm hc.2 hc.1
    · rw [if_neg hc]
  · rw [UpdateMethodLooped.updateValue_of_direction p (Bool.eq_false_iff.mpr hv)]
    simp only [mul_zero, add_zero, sub_zero, ite_self]
    exact UpdateMethodLooped.checkValue_of_mem p h _ hw

/-- C27: a zero-elapsed update is pure normalisation: `updateValue v 0 = v`
for every linear method and `updateValue v 0 = wrap v` for every looped
method with `min < max`; hence after `setMethod` with a looped method whose
target is a Direction or a Value inside `[min, max]`, a holder that held `v`
holds `wrap v`, which lies in `[min, max]`, and an in-range value is left
unchanged. -/
theorem setMethod_normalises_value (v : ℚ) :
    (∀ p : UpdateMethodLinear, p.updateValue v 0 = v) ∧
    (∀ p : UpdateMethodLooped, p.getMin < p.getMax →
      (p.getHasTargetValue = true →
        p.getMin ≤ p.getTargetValue ∧ p.getTargetValue ≤ p.getMax) →
      p.updateValue v 0 = p._checkValue v ∧
      ∀ h : UpdatedValue, h.getValue = v →
        (h.setMethod (some (UpdateMethodPtr.looped p))).getValue = p._checkValue v ∧
        p.getMin ≤ (h.setMethod (some (UpdateMethodPtr.looped p))).getValue ∧
        (h.setMethod (some (UpdateMethodPtr.looped p))).getValue ≤ p.getMax ∧
        (p.getMin ≤ v ∧ v ≤ p.getMax →
          (h.setMethod (some (UpdateMethodPtr.looped p))).getValue = v)) := by
  refine ⟨fun p => UpdateMethodLinear.updateValue_zero_elapsed p v, fun p hlt hg => ?_⟩
  have hz := UpdateMethodLooped.updateValue_zero_normalises p hlt v
  refine ⟨hz, fun h hv => ?_⟩
  have hset : (h.setMethod (some (UpdateMethodPtr.looped p))).getValue = p._checkValue v := by
    unfold UpdatedValue.setMethod UpdatedValue._addTime UpdatedValue.getIsUpdating
    simp only [UpdateMethodPtr.getIsFinished, UpdateMethodPtr.updateValue]
    have hv2 : (UpdatedValue.mk h.mIsPaused (some (UpdateMethodPtr.looped p)) h.mVar).getValue
        = v := hv
    rw [hv2]
    by_cases hf : p.getIsFinished v = true
    · simp only [hf, Bool.not_true, Bool.false_eq_true, if_false]
      rw [hv2]
      have hfin := (UpdateMethod.getIsFinished_iff p.toUpdateMethod v).mp hf
      have hgr := hg hfin.1
      rw [hfin.2]
      exact (UpdateMethodLooped.checkValue_of_mem p hlt _ hgr).symm
    · simp only [Bool.eq_false_iff.mpr hf, Bool.not_false, if_true]
      exact hz
  rw [hset]
  have hw := UpdateMethodLooped.checkValue_mem p hlt v
  exact ⟨rfl, hw.1, hw.2, fun hr => UpdateMethodLooped.checkValue_of_mem p hlt v hr⟩

/-- Witness for C27: a holder at `370` that receives the looped Increasing
method on `[0, 360]` holds `10` afterwards. -/
theorem setMethod_normalises_value_witness :
    ((UpdatedValueBasic.ctor 370).setMethod
      (some (UpdateMethodPtr.looped
        (UpdateMethodLooped.mk (UpdateMethod.mk T_DIRECTION 0 CD_INCREASING 1)
          false CD_INCREASING 0 360)))).getValue = 10 :=
  ((((setMethod_normalises_value 370).2
      (UpdateMethodLooped.mk (UpdateMethod.mk T_DIRECTION 0 CD_INCREASING 1)
        false CD_INCREASING 0 360)
      (by norm_num [UpdateMethodLooped.getMin, UpdateMethodLooped.getMax])
      (fun h => absurd h (by decide))).2
      (UpdatedValueBasic.ctor 370) rfl).1).trans
    (by norm_num [UpdateMethodLooped._checkValue, UpdateMethodLooped.getMin,
      UpdateMethodLooped.getMax, UtilBindValueToRange, UtilMinMax])

/-- C28 (counterexample): on the linear method constructed with rate `1` and
the Direction target `CD_INCREASING`, `getTargetValue` does not fail: it
returns the number `0`. -/
theorem getTargetValue_on_direction_target_returns :
    (UpdateMethodLinear.ctorDirection 1 CD_INCREASING).getHasTargetDirection = true ∧
    (UpdateMethodLinear.ctorDirection 1 CD_INCREASING).getTargetValue = 0 :=
  ⟨rfl, rfl⟩

/-- C28 (amended): the accessors are unchecked reads of the stored members.
On a method constructed with a Direction target `getTargetValue` returns `0`,
the value the constructor stores; on a method constructed with a Value target
`getTargetDirection` returns whatever the member `mTargetDir`, which the
constructor does not initialise, holds. -/
theorem wrong_kind_accessor_returns_stored_member (rate g lo hi : ℚ)
    (d u o : ConstDirection) :
    (UpdateMethodLinear.ctorDirection rate d).getTargetValue = 0 ∧
    (∀ p, UpdateMethodLooped.ctorDirection rate d lo hi o = some p →
      p.getTargetValue = 0) ∧
    (UpdateMethodLinear.ctorValue rate g u).getTargetDirection = u ∧
    (∀ p, UpdateMethodLooped.ctorValue rate g lo hi u o = some p →
      p.getTargetDirection = u) ∧
    (∀ p, UpdateMethodLooped.ctorValueOverride rate g d lo hi u = some p →
      p.getTargetDirection = u) := by
  refine ⟨rfl, fun p hp => ?_, rfl, fun p hp => ?_, fun p hp => ?_⟩
  · rw [(UpdateMethodLooped.ctorDirection_eq_some hp).2]
    rfl
  · rw [(UpdateMethodLooped.ctorValue_eq_some hp).2]
    rfl
  · rw [(UpdateMethodLooped.ctorValueOverride_eq_some hp).2]
    rfl

/-- Witness for C28 (amended): the looped method with a Direction target on
`[0, 360]` returns `0` from `getTargetValue`. -/
theorem wrong_kind_accessor_returns_stored_member_witness :
    UpdateMethodLooped.ctorDirection 1 CD_INCREASING 0 360 CD_INCREASING
      = some (UpdateMethodLooped.mk (UpdateMethod.mk T_DIRECTION 0 CD_INCREASING 1)
          false CD_INCREASING 0 360) ∧
    (UpdateMethodLooped.mk (UpdateMethod.mk T_DIRECTION 0 CD_INCREASING 1)
      false CD_INCREASING 0 360).getTargetValue = 0 :=
  ⟨by norm_num [UpdateMethodLooped.ctorDirection, UpdateMethod.ctorDirection],
   (wrong_kind_accessor_returns_stored_member 1 10 0 360
      CD_INCREASING CD_INCREASING CD_INCREASING).2.1 _
      (by norm_num [UpdateMethodLooped.ctorDirection, UpdateMethod.ctorDirection])⟩

/-- C29: on a range with `min < max`, `_checkValue v` lies in `[min, max]`,
is `v` whenever `v` lies in `[min, max]`, and is therefore idempotent. -/
theorem looped_checkValue_is_projection (p : UpdateMethodLooped)
    (h : p.getMin < p.getMax) (v : ℚ) :
    (p.getMin ≤ p._checkValue v ∧ p._checkValue v ≤ p.getMax) ∧
    (p.getMin ≤ v ∧ v ≤ p.getMax → p._checkValue v = v) ∧
    p._checkValue (p._checkValue v) = p._checkValue v :=
  ⟨UpdateMethodLooped.checkValue_mem p h v,
   fun hv => UpdateMethodLooped.checkValue_of_mem p h v hv,
   UpdateMethodLooped.checkValue_of_mem p h _ (UpdateMethodLooped.checkValue_mem p h v)⟩

/-- Witness for C29: on `[0, 100]`, normalising `250` twice is the same as
normalising it once. -/
theorem looped_checkValue_is_projection_witness :
    (0 : ℚ) < 100 ∧
    (UpdateMethodLooped.mk (UpdateMethod.mk T_DIRECTION 0 CD_INCREASING 10)
      false CD_INCREASING 0 100)._checkValue
      ((UpdateMethodLooped.mk (UpdateMethod.mk T_DIRECTION 0 CD_INCREASING 10)
        false CD_INCREASING 0 100)._checkValue 250)
      = (UpdateMethodLooped.mk (UpdateMethod.mk T_DIRECTION 0 CD_INCREASING 10)
        false CD_INCREASING 0 100)._checkValue 250 :=
  ⟨by norm_num,
   (looped_checkValue_is_projection
      (UpdateMethodLooped.mk (UpdateMethod.mk T_DIRECTION 0 CD_INCREASING 10)
        false CD_INCREASING 0 100)
      (by norm_num [UpdateMethodLooped.getMin, UpdateMethodLooped.getMax]) 250).2.2⟩

/-- C30: the member that the target type leaves unused does not influence the
results.  Two methods with a Value target (linear, or looped with the same
range and override) that differ only in the stored `mTargetDir` agree on
`updateValue` and `getIsFinished` for every input, and so do two methods with
a Direction target that differ only in the stored `mTargetValue`. -/
theorem unused_target_member_is_ignored (rate g x y lo hi v t : ℚ)
    (d d1 d2 ov : ConstDirection) (oe : Bool) :
    ((UpdateMethodLinear.mk (UpdateMethod.mk T_VALUE g d1 rate)).updateValue v t
        = (UpdateMethodLinear.mk (UpdateMethod.mk T_VALUE g d2 rate)).updateValue v t ∧
      (UpdateMethodLinear.mk (UpdateMethod.mk T_VALUE g d1 rate)).getIsFinished v
        = (UpdateMethodLinear.mk (UpdateMethod.mk T_VALUE g d2 rate)).getIsFinished v) ∧
    ((UpdateMethodLooped.mk (UpdateMethod.mk T_VALUE g d1 rate) oe ov lo hi).updateValue v t
        = (UpdateMethodLooped.mk (UpdateMethod.mk T_VALUE g d2 rate) oe ov lo hi).updateValue
            v t ∧
      (UpdateMethodLooped.mk (UpdateMethod.mk T_VALUE g d1 rate) oe ov lo hi).getIsFinished v
        = (UpdateMethodLooped.mk (UpdateMethod.mk T_VALUE g d2 rate) oe ov lo hi).getIsFinished
            v) ∧
    ((UpdateMethodLinear.mk (UpdateMethod.mk T_DIRECTION x d rate)).updateValue v t
        = (UpdateMethodLinear.mk (UpdateMethod.mk T_DIRECTION y d rate)).updateValue v t ∧
      (UpdateMethodLinear.mk (UpdateMethod.mk T_DIRECTION x d rate)).getIsFinished v
        = (UpdateMethodLinear.mk (UpdateMethod.mk T_DIRECTION y d rate)).getIsFinished v) ∧
    ((UpdateMethodLooped.mk (UpdateMethod.mk T_DIRECTION x d rate) oe ov lo hi).updateValue
          v t
        = (UpdateMethodLooped.mk (UpdateMethod.mk T_DIRECTION y d rate) oe ov lo hi).updateValue
            v t ∧
      (UpdateMethodLooped.mk (UpdateMethod.mk T_DIRECTION x d rate) oe ov lo hi).getIsFinished
          v
        = (UpdateMethodLooped.mk (UpdateMethod.mk T_DIRECTION y d rate) oe ov lo hi).getIsFinished
            v) := by
  refine ⟨⟨?_, ?_⟩, ⟨?_, ?_⟩, ⟨?_, ?_⟩, ⟨?_, ?_⟩⟩
  · simp [UpdateMethodLinear.updateValue, UpdateMethod.updateValue,
      UpdateMethodLinear.hooks, UpdateMethod.getHasTargetValue, UpdateMethod.getRate,
      UpdateMethodLinear._getBestDirection, UpdateMethodLinear._processResultForValueTarget,
      UpdateMethod.getTargetValue]
  · simp [UpdateMethodLinear.getIsFinished, UpdateMethod.getIsFinished,
      UpdateMethod.getHasTargetDirection, UpdateMethod.getTargetValue]
  · simp [UpdateMethodLooped.updateValue, UpdateMethod.updateValue,
      UpdateMethodLooped.hooks, UpdateMethod.getHasTargetValue, UpdateMethod.getRate,
      UpdateMethodLooped._getBestDirection, UpdateMethodLooped._processResultForValueTarget,
      UpdateMethodLooped._checkValue, UpdateMethodLooped.getMin, UpdateMethodLooped.getMax,
      UpdateMethodLooped.getIsOverrideEnabled, UpdateMethodLooped.getDirectionOverride,
      UpdateMethod.getTargetValue]
  · simp [UpdateMethodLooped.getIsFinished, UpdateMethod.getIsFinished,
      UpdateMethod.getHasTargetDirection, UpdateMethod.getTargetValue]
  · simp [UpdateMethodLinear.updateValue, UpdateMethod.updateValue,
      UpdateMethodLinear.hooks, UpdateMethod.getHasTargetValue, UpdateMethod.getRate,
      UpdateMethod.getTargetDirection]
  · simp [UpdateMethodLinear.getIsFinished, UpdateMethod.getIsFinished,
      UpdateMethod.getHasTargetDirection]
  · simp [UpdateMethodLooped.updateValue, UpdateMethod.updateValue,
      UpdateMethodLooped.hooks, UpdateMethod.getHasTargetValue, UpdateMethod.getRate,
      UpdateMethodLooped._processResultForDirectionalTarget,
      UpdateMethodLooped._checkValue, UpdateMethodLooped.getMin, UpdateMethodLooped.getMax,
      UpdateMethod.getTargetDirection]
  · simp [UpdateMethodLooped.getIsFinished, UpdateMethod.getIsFinished,
      UpdateMethod.getHasTargetDirection]

/-! ## Claims on `setMethod` and on the content of the list -/

/-- What `setMethod` stores when a method is installed: no test of the paused
flag takes place. -/
theorem UpdatedValue.setMethod_of_method (h : UpdatedValue) (p : UpdateMethodPtr) :
    h.setMethod (some p) =
      if p.getIsFinished h.getValue then
        UpdatedValue.mk h.mIsPaused (some p) h.mVar
      else
        UpdatedValue.mk h.mIsPaused (some p) (p.updateValue h.getValue 0) := by
  unfold UpdatedValue.setMethod UpdatedValue._addTime UpdatedValue.getIsUpdating
  cases hf : p.getIsFinished h.getValue
  · have hf2 : p.getIsFinished
        (UpdatedValue.mk h.mIsPaused (some p) h.mVar).getValue = false := hf
    simp only [hf2, Bool.not_false, if_true, Bool.false_eq_true, if_false]
    rfl
  · have hf2 : p.getIsFinished
        (UpdatedValue.mk h.mIsPaused (some p) h.mVar).getValue = true := hf
    simp only [hf2, Bool.not_true, Bool.false_eq_true, if_false, if_true]

/-- C31: `setMethod` ignores the paused flag: for every holder with value `v`,
paused or not, and every method `p` with `p.getIsFinished v` false, the value
after `setMethod p` is `p.updateValue v 0`, the method is installed and the
flag is kept; the paused holder with value `370` that receives the looped
Increasing method on `[0, 360]` has its value changed to `10`, while `addTime`
on a paused holder changes nothing. -/
theorem setMethod_ignores_pause (h : UpdatedValue) (p : UpdateMethodPtr)
    (hf : p.getIsFinished h.getValue = false) :
    (h.setMethod (some p)).getValue = p.updateValue h.getValue 0 ∧
    (h.setMethod (some p)).getMethod = some p ∧
    (h.setMethod (some p)).getIsPaused = h.getIsPaused ∧
    ((UpdatedValue.mk true none 370).getIsPaused = true ∧
      ((UpdatedValue.mk true none 370).setMethod
        (some (UpdateMethodPtr.looped
          (UpdateMethodLooped.mk (UpdateMethod.mk T_DIRECTION 0 CD_INCREASING 1)
            false CD_INCREASING 0 360)))).getValue = 10 ∧
      (UpdatedValue.mk true none 370).getValue = 370) ∧
    (h.getIsPaused = true → ∀ t, (h.addTime t).getValue = h.getValue) := by
  have key := UpdatedValue.setMethod_of_method h p
  rw [hf] at key
  simp only [Bool.false_eq_true, if_false] at key
  refine ⟨by rw [key]; rfl, by rw [key]; rfl, by rw [key]; rfl, ⟨rfl, ?_, rfl⟩,
    fun hp t => by rw [UpdatedValue.addTime_of_paused h hp]⟩
  have hz := UpdateMethodLooped.updateValue_zero_normalises
    (UpdateMethodLooped.mk (UpdateMethod.mk T_DIRECTION 0 CD_INCREASING 1)
      false CD_INCREASING 0 360)
    (by norm_num [UpdateMethodLooped.getMin, UpdateMethodLooped.getMax]) 370
  rw [UpdatedValue.setMethod_of_method]
  have hnf : (UpdateMethodPtr.looped
      (UpdateMethodLooped.mk (UpdateMethod.mk T_DIRECTION 0 CD_INCREASING 1)
        false CD_INCREASING 0 360)).getIsFinished
      (UpdatedValue.mk true none 370).getValue = false := rfl
  rw [hnf]
  simp only [Bool.false_eq_true, if_false, UpdatedValue.getValue,
    UpdateMethodPtr.updateValue]
  rw [hz]
  norm_num [UpdateMethodLooped._checkValue, UpdateMethodLooped.getMin,
    UpdateMethodLooped.getMax, UtilBindValueToRange, UtilMinMax]

/-- Witness for C31: a paused holder at `1` that receives the linear method of
rate `1` towards `10` is not finished at `1`, and `setMethod` stores
`updateValue 1 0`. -/
theorem setMethod_ignores_pause_witness :
    (UpdatedValue.mk true none 1).getIsPaused = true ∧
    ((UpdatedValue.mk true none 1).setMethod
      (some (UpdateMethodPtr.linear
        (UpdateMethodLinear.ctorValue 1 10 CD_INCREASING)))).getValue
      = (UpdateMethodPtr.linear
          (UpdateMethodLinear.ctorValue 1 10 CD_INCREASING)).updateValue 1 0 :=
  ⟨rfl,
   (setMethod_ignores_pause (UpdatedValue.mk true none 1)
      (UpdateMethodPtr.linear (UpdateMethodLinear.ctorValue 1 10 CD_INCREASING))
      (by norm_num [UpdateMethodPtr.getIsFinished, UpdateMethodLinear.getIsFinished,
        UpdateMethod.getIsFinished, UpdateMethodLinear.ctorValue, UpdateMethod.ctorValue,
        UpdateMethod.getHasTargetDirection, UpdateMethod.getTargetValue,
        UpdatedValue.getValue])).1⟩

/-- Removing an item keeps the list free of repeated pointers. -/
theorem UpdatedObjectList.remove_nodup (l : UpdatedObjectList) (hl : l.mList.Nodup)
    (x : ℕ) : (l.remove x).mList.Nodup :=
  List.Nodup.erase x hl

/-- Every call keeps the list free of repeated pointers. -/
theorem UpdatedObjectList.call_nodup (l : UpdatedObjectList) (hl : l.mList.Nodup)
    (c : UpdatedObjectList.Call) : (l.call c).mList.Nodup := by
  cases c with
  | add x => exact UpdatedObjectList.add_nodup l hl x
  | remove x => exact UpdatedObjectList.remove_nodup l hl x
  | clear => exact List.nodup_nil

/-- A sequence of calls keeps a list free of repeated pointers. -/
theorem UpdatedObjectList.foldl_call_nodup (cs : List UpdatedObjectList.Call) :
    ∀ l : UpdatedObjectList, l.mList.Nodup →
      (cs.foldl UpdatedObjectList.call l).mList.Nodup := by
  induction cs with
  | nil => intro l hl; exact hl
  | cons c cs ih =>
    intro l hl
    rw [List.foldl_cons]
    exact ih _ (UpdatedObjectList.call_nodup l hl c)

/-- C32: starting from the empty list, after any sequence of `add`, `remove`
and `clear` calls the list has no duplicate entries; `add x` leaves a list
unchanged when `contains x` holds and otherwise appends `x` at the end; and
after `remove x` on such a list `contains x` is false and the remaining items
keep their relative order. -/
theorem list_never_holds_item_twice (cs : List UpdatedObjectList.Call) (x : ℕ) :
    (UpdatedObjectList.calls cs).mList.Nodup ∧
    (∀ l : UpdatedObjectList, l.contains x = true → l.add x = l) ∧
    (∀ l : UpdatedObjectList, l.contains x = false →
      (l.add x).mList = l.mList ++ [x] ∧ (l.add x).getIsPaused = l.getIsPaused) ∧
    ((UpdatedObjectList.calls cs).remove x).contains x = false ∧
    ((UpdatedObjectList.calls cs).remove x).mList
      = (UpdatedObjectList.calls cs).mList.filter (fun y => y != x) ∧
    (∀ y, y ≠ x →
      (((UpdatedObjectList.calls cs).remove x).contains y
        = (UpdatedObjectList.calls cs).contains y)) := by
  have hnd : (UpdatedObjectList.calls cs).mList.Nodup :=
    UpdatedObjectList.foldl_call_nodup cs _ UpdatedObjectList.ctor_nodup
  have hrm : ((UpdatedObjectList.calls cs).remove x).mList
      = (UpdatedObjectList.calls cs).mList.filter (fun y => y != x) :=
    List.Nodup.erase_eq_filter hnd x
  refine ⟨hnd, fun l hc => ?_, fun l hc => ?_, ?_, hrm, fun y hy => ?_⟩
  · unfold UpdatedObjectList.add
    rw [hc]
    rfl
  · unfold UpdatedObjectList.add
    rw [hc]
    exact ⟨rfl, rfl⟩
  · rw [Bool.eq_false_iff]
    intro hc
    rw [UpdatedObjectList.contains_iff] at hc
    exact List.Nodup.not_mem_erase hnd hc
  · have h1 : y ∈ ((UpdatedObjectList.calls cs).remove x).mList
        ↔ y ∈ (UpdatedObjectList.calls cs).mList := by
      rw [hrm, List.mem_filter]
      constructor
      · exact fun h => h.1
      · exact fun h => ⟨h, by simpa using hy⟩
    cases hb : (UpdatedObjectList.calls cs).contains y
    · rw [Bool.eq_false_iff]
      intro hc
      rw [UpdatedObjectList.contains_iff] at hc
      have := (UpdatedObjectList.contains_iff _ y).mpr (h1.mp hc)
      rw [hb] at this
      exact absurd this (by decide)
    · exact (UpdatedObjectList.contains_iff _ y).mpr
        (h1.mpr ((UpdatedObjectList.contains_iff _ y).mp hb))

/-- Witness for C32: after `add 3, add 5, add 3, add 7, remove 5` the list
holds `3` and adding `3` again leaves it unchanged. -/
theorem list_never_holds_item_twice_witness :
    (UpdatedObjectList.calls
      [UpdatedObjectList.Call.add 3, UpdatedObjectList.Call.add 5,
       UpdatedObjectList.Call.add 3, UpdatedObjectList.Call.add 7,
       UpdatedObjectList.Call.remove 5]).contains 3 = true ∧
    (UpdatedObjectList.calls
      [UpdatedObjectList.Call.add 3, UpdatedObjectList.Call.add 5,
       UpdatedObjectList.Call.add 3, UpdatedObjectList.Call.add 7,
       UpdatedObjectList.Call.remove 5]).add 3
      = UpdatedObjectList.calls
        [UpdatedObjectList.Call.add 3, UpdatedObjectList.Call.add 5,
         UpdatedObjectList.Call.add 3, UpdatedObjectList.Call.add 7,
         UpdatedObjectList.Call.remove 5] :=
  ⟨by decide,
   (list_never_holds_item_twice
      [UpdatedObjectList.Call.add 3, UpdatedObjectList.Call.add 5,
       UpdatedObjectList.Call.add 3, UpdatedObjectList.Call.add 7,
       UpdatedObjectList.Call.remove 5] 3).2.1 _ (by decide)⟩

end OverRated
